import Mathlib

/-!
Verification of the PhoenixCore boot-media forge against its specification.

Each Rust function relevant to the claims is shallowly embedded as an
executable Lean definition; machine integers (`u64`, `u32`, `u8`) are
modelled as `Nat` (all the embedded arithmetic stays within the source's
bounds, so no wrap-around modelling is needed), fallible Rust functions
returning `Result`/`Option` become `Except String`/`Option`, and the
side-effecting workflow functions become pure functions that additionally
return the trace of the external effects they would perform.
-/

namespace PhoenixCore

/-! ## Safety gate (crates/safety/src/lib.rs) -/

namespace Safety

/-- Rust `struct SafetyContext`. -/
structure SafetyContext where
  force_mode : Bool
  confirmation_token : Option String
deriving DecidableEq, Repr

/-- Rust `enum SafetyDecision`. -/
inductive SafetyDecision where
  | Allow : SafetyDecision
  | Deny : String → SafetyDecision
deriving DecidableEq, Repr

/-- Rust `str::starts_with`, modelled on the character sequence. -/
def starts_with (s pre : String) : Bool :=
  pre.data.isPrefixOf s.data

/-- Embedding of `can_write_to_disk` (crates/safety/src/lib.rs lines 19-36),
    keeping the source's early-return structure, including the final
    `if is_system_disk { return Allow }` branch that also allows. -/
def can_write_to_disk (ctx : SafetyContext) (is_system_disk : Bool) : SafetyDecision :=
  if !ctx.force_mode then
    .Deny "Denied: destructive ops require force-mode"
  else
    match ctx.confirmation_token with
    | none => .Deny "Denied: confirmation token missing"
    | some token =>
      if !(starts_with token "PHX-") then
        .Deny "Denied: invalid confirmation token"
      else if is_system_disk then
        .Allow
      else
        .Allow

end Safety

/-! ## Chunk planning (crates/imaging/src/lib.rs) -/

namespace Imaging

/-- Rust `struct Chunk`. -/
structure Chunk where
  index : ℕ
  offset : ℕ
  size : ℕ
deriving DecidableEq, Repr

/-- Rust `struct ChunkPlan`. -/
structure ChunkPlan where
  chunk_size_bytes : ℕ
  chunks : List Chunk
deriving DecidableEq, Repr

/-- The `while offset < total_size` loop of `make_chunk_plan`.  The loop
    advances `offset` by at least one byte per iteration whenever
    `chunk_size_bytes > 0` (the only way the loop is entered), so
    `total_size` iterations of fuel always suffice. -/
def makeChunkPlanAux (total chunkSize : ℕ) : ℕ → ℕ → ℕ → List Chunk
  | 0, _, _ => []
  | fuel + 1, offset, index =>
    if offset < total then
      let size := min (total - offset) chunkSize
      ⟨index, offset, size⟩ :: makeChunkPlanAux total chunkSize fuel (offset + size) (index + 1)
    else
      []

/-- Embedding of `make_chunk_plan` (crates/imaging/src/lib.rs lines 42-65). -/
def make_chunk_plan (total_size chunk_size_bytes : ℕ) : ChunkPlan :=
  if chunk_size_bytes = 0 then
    { chunk_size_bytes := chunk_size_bytes, chunks := [] }
  else
    { chunk_size_bytes := chunk_size_bytes
      chunks := makeChunkPlanAux total_size chunk_size_bytes total_size 0 0 }

/-- Sizes of the chunks of a plan, in order. -/
def planSizes (p : ChunkPlan) : List ℕ := p.chunks.map Chunk.size

/-- The offsets of a chunk list are consistent starting from `o`:
    each chunk starts where the previous one ended. -/
def offsetsFrom (o : ℕ) : List Chunk → Prop
  | [] => True
  | ch :: t => ch.offset = o ∧ offsetsFrom (o + ch.size) t

/-- Rust `struct HashProgress`. -/
structure HashProgress where
  chunk_index : ℕ
  total_chunks : ℕ
  bytes_hashed : ℕ
  total_bytes : ℕ

/-- A raw block device as the read-hash primitives see it: its byte
    content, how many bytes a single OS read call at a given position for a
    given request delivers (the OS guarantees at most the request — capped
    in `devRead`), and whether open and seek calls succeed. -/
structure Device where
  content : ℕ → ℕ
  readCount : ℕ → ℕ → ℕ
  openOk : Bool
  seekOk : ℕ → Bool

/-- Bytes delivered by one OS read call (never more than requested). -/
def devRead (d : Device) (pos req : ℕ) : ℕ :=
  min (d.readCount pos req) req

/-- The `n` bytes of the device starting at `pos` (a raw device yields
    `u8`, hence the explicit `% 256`). -/
def devBytes (d : Device) (pos n : ℕ) : List ℕ :=
  (List.range n).map fun i => d.content (pos + i) % 256

/-- `to_hex` (crates/imaging/src/lib.rs lines 406-412): each byte as two
    lowercase hex digits; the hex string is modelled as its ASCII bytes. -/
def to_hex (bytes : List ℕ) : List ℕ :=
  bytes.flatMap fun b =>
    [(if b / 16 < 10 then 48 + b / 16 else 87 + b / 16),
     (if b % 16 < 10 then 48 + b % 16 else 87 + b % 16)]

/-- The per-chunk loop body of the Windows
    `hash_disk_readonly_physicaldrive_with_progress` (imaging lines
    139-188): seek, ONE `ReadFile` call, hash the `read` bytes actually
    delivered (error only when the read fails outright or returns zero),
    then report progress.  The `chunk_size > usize::MAX` and
    `chunk.size > u32::MAX` guards of the source never fire in the `Nat`
    model and are omitted.  `sha` stands for the external SHA-256. -/
def winHashChunks (sha : List ℕ → List ℕ) (d : Device) (obs : HashProgress → Bool)
    (totalChunks totalBytes : ℕ) :
    List Chunk → ℕ → Except String (List (ℕ × List ℕ))
  | [], _ => .ok []
  | ch :: rest, bytesHashed =>
    if d.seekOk ch.offset = false then
      .error ("SetFilePointerEx failed at offset " ++ toString ch.offset)
    else
      let got := devRead d ch.offset ch.size
      if got = 0 then
        .error ("ReadFile failed at chunk " ++ toString ch.index)
      else
        let hash := sha (devBytes d ch.offset got)
        let bytesHashed' := bytesHashed + got
        let progress : HashProgress :=
          ⟨ch.index, totalChunks, bytesHashed', totalBytes⟩
        if obs progress = false then
          .error "hash operation cancelled"
        else
          match winHashChunks sha d obs totalChunks totalBytes rest bytesHashed' with
          | .ok tail => .ok ((ch.index, to_hex hash) :: tail)
          | .error e => .error e

/-- Embedding of `hash_disk_readonly_physicaldrive_with_progress`
    (imaging lines 94-193).  `max_chunks = none` stands for the source's
    `u64::MAX` limit, which exceeds any plan length. -/
def hash_disk_readonly_physicaldrive_with_progress (sha : List ℕ → List ℕ)
    (d : Device) (obs : HashProgress → Bool) (disk_id : String)
    (total_size chunk_size : ℕ) (max_chunks : Option ℕ) :
    Except String (List (ℕ × List ℕ)) :=
  if chunk_size = 0 then
    .error "chunk_size must be greater than zero"
  else if d.openOk = false then
    .error ("CreateFileW failed for \\\\.\\" ++ disk_id)
  else
    let plan := make_chunk_plan total_size chunk_size
    let taken := match max_chunks with
      | some m => plan.chunks.take m
      | none => plan.chunks
    winHashChunks sha d obs plan.chunks.length total_size taken 0

/-- The inner `while remaining > 0` loop of the Unix
    `hash_device_readonly` (imaging lines 240-248): repeatedly read into a
    `chunk_size`-byte buffer, failing on EOF, until the chunk is complete;
    returns the bytes fed to the chunk's hasher.  Each iteration consumes
    at least one byte, so `remaining` fuel suffices; the fuel-exhausted
    arm is unreachable from `hash_device_readonly`. -/
def unixChunkRead (d : Device) (bufLen : ℕ) :
    ℕ → ℕ → ℕ → Except String (List ℕ)
  | 0, _, _ => .ok []
  | fuel + 1, pos, remaining =>
    if remaining = 0 then
      .ok []
    else
      let readLen := min remaining bufLen
      let got := devRead d pos readLen
      if got = 0 then
        .error "unexpected EOF while hashing device"
      else
        match unixChunkRead d bufLen fuel (pos + got) (remaining - got) with
        | .ok rest => .ok (devBytes d pos got ++ rest)
        | .error e => .error e

/-- The per-chunk loop of `hash_device_readonly` (imaging lines 236-251):
    seek to the chunk's offset, read exactly `chunk.size` bytes through the
    inner loop, hash them. -/
def unixHashChunks (sha : List ℕ → List ℕ) (d : Device) (chunk_size : ℕ) :
    List Chunk → Except String (List (ℕ × List ℕ))
  | [] => .ok []
  | ch :: rest =>
    if d.seekOk ch.offset = false then
      .error "seek error"
    else
      match unixChunkRead d chunk_size ch.size ch.offset ch.size with
      | .error e => .error e
      | .ok bytes =>
        match unixHashChunks sha d chunk_size rest with
        | .ok tail => .ok ((ch.index, to_hex (sha bytes)) :: tail)
        | .error e => .error e

/-- Embedding of the Unix `hash_device_readonly` (imaging lines 216-254). -/
def hash_device_readonly (sha : List ℕ → List ℕ) (d : Device)
    (device_path : String) (total_size chunk_size : ℕ) (max_chunks : Option ℕ) :
    Except String (List (ℕ × List ℕ)) :=
  if chunk_size = 0 then
    .error "chunk_size must be greater than zero"
  else if d.openOk = false then
    .error ("open " ++ device_path ++ " failed")
  else
    let plan := make_chunk_plan total_size chunk_size
    let taken := match max_chunks with
      | some m => plan.chunks.take m
      | none => plan.chunks
    unixHashChunks sha d chunk_size taken

/-- A device whose every read call delivers at most two bytes: it forces a
    short read on any four-byte chunk. -/
def shortReadDevice : Device :=
  { content := fun _ => 17
    readCount := fun _ _ => 2
    openOk := true
    seekOk := fun _ => true }

/-- A well-behaved device delivering every read in full. -/
def fullReadDevice : Device :=
  { content := fun i => i
    readCount := fun _ req => req
    openOk := true
    seekOk := fun _ => true }

end Imaging

/-! ## Workflow step validation and dispatch (crates/workflow-engine/src/lib.rs) -/

namespace Engine

/-- `serde_json::Value`, restricted to what the workflow engine's parameter
    helpers inspect. -/
inductive Json where
  | null : Json
  | jbool : Bool → Json
  | num : ℕ → Json
  | str : String → Json
  | arr : List Json → Json
  | obj : List (String × Json) → Json

/-- `serde_json::Value::get` on an object (serde maps have unique keys;
    lookup of the first matching key). -/
def Json.get : Json → String → Option Json
  | .obj fields, key => (fields.find? (fun f => f.1 == key)).map Prod.snd
  | _, _ => none

/-- `serde_json::Value::as_str`. -/
def Json.as_str : Json → Option String
  | .str s => some s
  | _ => none

/-- `serde_json::Value::as_u64` (numbers are modelled as naturals). -/
def Json.as_u64 : Json → Option ℕ
  | .num n => some n
  | _ => none

/-- `serde_json::Value::as_bool`. -/
def Json.as_bool : Json → Option Bool
  | .jbool b => some b
  | _ => none

/-- Rust `struct WorkflowStep` (crates/core/src/lib.rs). -/
structure WorkflowStep where
  id : String
  action : String
  params : Json

/-- `require_string` (workflow-engine lines 2438-2443). -/
def require_string (value : Json) (key : String) : Except String String :=
  match (value.get key).bind Json.as_str with
  | some s => .ok s
  | none => .error ("missing string field " ++ key)

/-- `require_u32` (workflow-engine lines 2449-2455). -/
def require_u32 (value : Json) (key : String) : Except String ℕ :=
  match (value.get key).bind Json.as_u64 with
  | some n => .ok n
  | none => .error ("missing number field " ++ key)

/-- `ensure_os` (workflow-engine lines 1362-1368); `current_os()` is a
    compile-time constant of the build, passed here as a parameter. -/
def ensure_os (currentOs required : String) : Except String Unit :=
  if currentOs ≠ required then
    .error ("action requires " ++ required ++ ", current " ++ currentOs)
  else
    .ok ()

/-- Embedding of `validate_step` (workflow-engine lines 1293-1360).  A Rust
    `match` on `&str` tests the patterns in order, so it is embedded as the
    corresponding if-chain; the source's two arms for
    `"macos_installer_usb"` (lines 1311 and 1340) are both kept, in their
    source positions. -/
def validate_step (currentOs : String) (step : WorkflowStep) : Except String Unit :=
  if step.action = "windows_installer_usb" then do
    let _ ← ensure_os currentOs "windows"
    let _ ← require_string step.params "target_disk_id"
    let _ ← require_string step.params "source_path"
    pure ()
  else if step.action = "windows_apply_image" then do
    let _ ← ensure_os currentOs "windows"
    let _ ← require_string step.params "source_path"
    let _ ← require_u32 step.params "image_index"
    let _ ← require_string step.params "target_dir"
    pure ()
  else if step.action = "linux_installer_usb" then do
    let _ ← ensure_os currentOs "linux"
    let _ ← require_string step.params "source_path"
    let _ ← require_string step.params "target_mount"
    pure ()
  else if step.action = "macos_installer_usb" then do
    let _ ← ensure_os currentOs "macos"
    let _ ← require_string step.params "source_path"
    let _ ← require_string step.params "target_mount"
    pure ()
  else if step.action = "linux_write_image" then do
    let _ ← ensure_os currentOs "linux"
    let _ ← require_string step.params "source_image"
    let _ ← require_string step.params "target_device"
    pure ()
  else if step.action = "macos_write_image" then do
    let _ ← ensure_os currentOs "macos"
    let _ ← require_string step.params "source_image"
    let _ ← require_string step.params "target_device"
    pure ()
  else if step.action = "linux_boot_prep" then do
    let _ ← ensure_os currentOs "linux"
    let _ ← require_string step.params "source_path"
    let _ ← require_string step.params "target_mount"
    pure ()
  else if step.action = "macos_boot_prep" then do
    let _ ← ensure_os currentOs "macos"
    let _ ← require_string step.params "source_path"
    let _ ← require_string step.params "target_mount"
    pure ()
  else if step.action = "stage_bootloader" then do
    let _ ← require_string step.params "source_path"
    let _ ← require_string step.params "target_mount"
    pure ()
  else if step.action = "macos_installer_usb" then do
    let _ ← ensure_os currentOs "macos"
    let _ ← require_string step.params "source_path"
    let _ ← require_string step.params "target_device"
    pure ()
  else if step.action = "macos_legacy_patch" then do
    let _ ← ensure_os currentOs "macos"
    let _ ← require_string step.params "source_path"
    pure ()
  else if step.action = "report_verify" then do
    let _ ← require_string step.params "path"
    pure ()
  else if step.action = "disk_hash_report" then do
    let _ ← require_string step.params "disk_id"
    pure ()
  else
    .error ("unknown workflow action " ++ step.action)

/-- The runner invoked by each arm of `run_workflow_definition`'s dispatch
    match (workflow-engine lines 1080-1217). -/
inductive Runner where
  | windowsInstallerUsb
  | windowsApplyImage
  | unixInstallerUsb
  | unixWriteImage
  | unixBootPrep
  | macosInstallerUsb
  | stageBootloader
  | legacyPatch
  | reportVerify
  | diskHashReport
deriving DecidableEq, Repr

/-- Which runner `run_workflow_definition` dispatches an action string to
    (workflow-engine lines 1080-1217), with the two `"macos_installer_usb"`
    arms (lines 1111 and 1161) kept in their source positions: the first
    calls `run_unix_installer_usb`, the second `run_macos_installer_usb`. -/
def dispatch_runner (action : String) : Option Runner :=
  if action = "windows_installer_usb" then some .windowsInstallerUsb
  else if action = "windows_apply_image" then some .windowsApplyImage
  else if action = "linux_installer_usb" then some .unixInstallerUsb
  else if action = "macos_installer_usb" then some .unixInstallerUsb
  else if action = "linux_write_image" then some .unixWriteImage
  else if action = "macos_write_image" then some .unixWriteImage
  else if action = "linux_boot_prep" then some .unixBootPrep
  else if action = "macos_boot_prep" then some .unixBootPrep
  else if action = "macos_installer_usb" then some .macosInstallerUsb
  else if action = "stage_bootloader" then some .stageBootloader
  else if action = "macos_legacy_patch" then some .legacyPatch
  else if action = "report_verify" then some .reportVerify
  else if action = "disk_hash_report" then some .diskHashReport
  else none

/-- Spec-side comparison definition: `validate_step` with the duplicate
    `"macos_installer_usb"` arm (source line 1340, requiring
    `target_device`) deleted.  Used only to state that the duplicate arm is
    unreachable. -/
def validate_step_sans_duplicate (currentOs : String) (step : WorkflowStep) :
    Except String Unit :=
  if step.action = "windows_installer_usb" then do
    let _ ← ensure_os currentOs "windows"
    let _ ← require_string step.params "target_disk_id"
    let _ ← require_string step.params "source_path"
    pure ()
  else if step.action = "windows_apply_image" then do
    let _ ← ensure_os currentOs "windows"
    let _ ← require_string step.params "source_path"
    let _ ← require_u32 step.params "image_index"
    let _ ← require_string step.params "target_dir"
    pure ()
  else if step.action = "linux_installer_usb" then do
    let _ ← ensure_os currentOs "linux"
    let _ ← require_string step.params "source_path"
    let _ ← require_string step.params "target_mount"
    pure ()
  else if step.action = "macos_installer_usb" then do
    let _ ← ensure_os currentOs "macos"
    let _ ← require_string step.params "source_path"
    let _ ← require_string step.params "target_mount"
    pure ()
  else if step.action = "linux_write_image" then do
    let _ ← ensure_os currentOs "linux"
    let _ ← require_string step.params "source_image"
    let _ ← require_string step.params "target_device"
    pure ()
  else if step.action = "macos_write_image" then do
    let _ ← ensure_os currentOs "macos"
    let _ ← require_string step.params "source_image"
    let _ ← require_string step.params "target_device"
    pure ()
  else if step.action = "linux_boot_prep" then do
    let _ ← ensure_os currentOs "linux"
    let _ ← require_string step.params "source_path"
    let _ ← require_string step.params "target_mount"
    pure ()
  else if step.action = "macos_boot_prep" then do
    let _ ← ensure_os currentOs "macos"
    let _ ← require_string step.params "source_path"
    let _ ← require_string step.params "target_mount"
    pure ()
  else if step.action = "stage_bootloader" then do
    let _ ← require_string step.params "source_path"
    let _ ← require_string step.params "target_mount"
    pure ()
  else if step.action = "macos_legacy_patch" then do
    let _ ← ensure_os currentOs "macos"
    let _ ← require_string step.params "source_path"
    pure ()
  else if step.action = "report_verify" then do
    let _ ← require_string step.params "path"
    pure ()
  else if step.action = "disk_hash_report" then do
    let _ ← require_string step.params "disk_id"
    pure ()
  else
    .error ("unknown workflow action " ++ step.action)

/-- Spec-side comparison definition: `dispatch_runner` with the duplicate
    `"macos_installer_usb"` arm (source line 1161, dispatching
    `run_macos_installer_usb`) deleted. -/
def dispatch_runner_sans_duplicate (action : String) : Option Runner :=
  if action = "windows_installer_usb" then some .windowsInstallerUsb
  else if action = "windows_apply_image" then some .windowsApplyImage
  else if action = "linux_installer_usb" then some .unixInstallerUsb
  else if action = "macos_installer_usb" then some .unixInstallerUsb
  else if action = "linux_write_image" then some .unixWriteImage
  else if action = "macos_write_image" then some .unixWriteImage
  else if action = "linux_boot_prep" then some .unixBootPrep
  else if action = "macos_boot_prep" then some .unixBootPrep
  else if action = "stage_bootloader" then some .stageBootloader
  else if action = "macos_legacy_patch" then some .legacyPatch
  else if action = "report_verify" then some .reportVerify
  else if action = "disk_hash_report" then some .diskHashReport
  else none

end Engine

/-! ## Legacy patcher plist mutation (crates/legacy-patcher/src/lib.rs) -/

namespace Patcher

/-- `plist::Value`, restricted to the variants the patch logic inspects;
    the remaining variants (Boolean, Data, Date, Real, Integer, Uid), which
    the patch code never looks inside, are collapsed into `other`. -/
inductive PValue where
  | string : String → PValue
  | array : List PValue → PValue
  | dictionary : List (String × PValue) → PValue
  | other : ℕ → PValue

/-- `plist::Value::as_string`. -/
def PValue.as_string : PValue → Option String
  | .string s => some s
  | _ => none

/-- Dictionary lookup (first matching key, as a `plist::Dictionary`
    reference lookup behaves). -/
def dict_get (fields : List (String × PValue)) (key : String) : Option PValue :=
  (fields.find? (fun f => f.1 == key)).map Prod.snd

/-- Replace the value at the first occurrence of `key` (mutation through
    the reference `plist::Dictionary::entry` hands out). -/
def dict_set : List (String × PValue) → String → PValue → List (String × PValue)
  | [], _, _ => []
  | f :: t, key, newv =>
    if f.1 == key then (f.1, newv) :: t else f :: dict_set t key newv

/-- The per-key body of `update_plist_arrays` (legacy-patcher lines
    129-146): `find_array_mut` is `as_dictionary_mut` followed by
    `entry(key).or_insert(Array(vec![]))` and `as_array_mut`; on an array
    the entry string is appended when absent. -/
def updateArrayAtKey (v : PValue) (key entry : String) : PValue × Bool :=
  match v with
  | .dictionary fields =>
    let fields1 :=
      if (dict_get fields key).isSome then fields else fields ++ [(key, .array [])]
    match dict_get fields1 key with
    | some (.array xs) =>
      if xs.any (fun item => item.as_string == some entry) then
        (.dictionary fields1, false)
      else
        (.dictionary (dict_set fields1 key (.array (xs ++ [.string entry]))), true)
    | _ => (.dictionary fields1, false)
  | _ => (v, false)

/-- `update_plist_arrays` (legacy-patcher lines 129-140): iterate the keys,
    or-ing the per-key `changed` flags. -/
def update_plist_arrays (v : PValue) : List String → String → PValue × Bool
  | [], _ => (v, false)
  | k :: ks, entry =>
    let r1 := updateArrayAtKey v k entry
    let r2 := update_plist_arrays r1.1 ks entry
    (r2.1, r1.2 || r2.2)

/-- The key set of `patch_supported_models` (legacy-patcher lines 115-122). -/
def supported_model_keys : List String :=
  ["SupportedModels", "SupportedModelProperties", "SupportedDeviceModels"]

/-- The key set of `patch_supported_board_ids` (legacy-patcher lines 124-127). -/
def board_id_keys : List String :=
  ["BoardIDs", "SupportedBoardIDs", "SupportedBoardIds"]

/-- `patch_supported_models`. -/
def patch_supported_models (v : PValue) (model : String) : PValue × Bool :=
  update_plist_arrays v supported_model_keys model

/-- `patch_supported_board_ids`. -/
def patch_supported_board_ids (v : PValue) (board_id : String) : PValue × Bool :=
  update_plist_arrays v board_id_keys board_id

/-- The per-file patch step of `run_legacy_patch` (legacy-patcher lines
    63-67): patch the supported-model arrays, then, when a board-id was
    given, the board-id arrays; `changed` is the or of the two flags. -/
def patchPlistValue (v : PValue) (model : String) (board_id : Option String) :
    PValue × Bool :=
  let r1 := patch_supported_models v model
  match board_id with
  | some board =>
    let r2 := patch_supported_board_ids r1.1 board
    (r2.1, r1.2 || r2.2)
  | none => r1

/-- A key is settled for an entry: if the value is a top-level dictionary,
    the key is present, and if it holds an array, that array already
    contains the entry (a present non-array is left alone). -/
def keySettled (v : PValue) (key entry : String) : Prop :=
  ∀ fields, v = .dictionary fields →
    ∃ w, dict_get fields key = some w ∧
      ∀ xs, w = .array xs → (xs.any fun item => item.as_string == some entry) = true

end Patcher

/-! ## Report bundles (crates/report/src/lib.rs)

The bundle directory is modelled as a partial map from file names to byte
lists (names and file contents are byte lists; a Rust `String` appears as
its bytes).  The external crates are parameters: `sha` stands for
`sha2::Sha256::digest`, `encodeManifest` for `serde_json::to_vec_pretty`
on a `Manifest`, and `decodeManifest` for `serde_json::from_slice`.  The
serialization of `device_graph.json`, `run.json` and `logs.txt` is opaque
to every claim, so their byte contents are taken as inputs. -/

namespace Report

/-- The bytes of a string literal (code points; all names used are ASCII). -/
def strBytes (s : String) : List ℕ := s.data.map Char.toNat

def deviceGraphName : List ℕ := strBytes "device_graph.json"
def runJsonName : List ℕ := strBytes "run.json"
def logsName : List ℕ := strBytes "logs.txt"
def manifestJsonName : List ℕ := strBytes "manifest.json"
def manifestSigName : List ℕ := strBytes "manifest.sig"

/-- The bundle directory: name ↦ content. -/
def Files : Type := List ℕ → Option (List ℕ)

def emptyFiles : Files := fun _ => none

/-- `fs::write`: create or overwrite. -/
def writeFile (f : Files) (name data : List ℕ) : Files :=
  fun n => if n = name then some data else f n

/-- `to_hex` (report lines 237-243): two lowercase hex digits per byte,
    returned as ASCII bytes. -/
def to_hex (bytes : List ℕ) : List ℕ :=
  bytes.flatMap fun b =>
    [(if b / 16 < 10 then 48 + b / 16 else 87 + b / 16),
     (if b % 16 < 10 then 48 + b % 16 else 87 + b % 16)]

/-- `char::is_whitespace` on the ASCII range (hex strings are ASCII). -/
def isWsByte (b : ℕ) : Bool :=
  b == 9 || b == 10 || b == 11 || b == 12 || b == 13 || b == 32

/-- `str::trim` on ASCII bytes. -/
def trimAscii (l : List ℕ) : List ℕ :=
  ((l.dropWhile isWsByte).reverse.dropWhile isWsByte).reverse

/-- `u8::to_ascii_lowercase`. -/
def toLowerByte (b : ℕ) : ℕ := if 65 ≤ b ∧ b ≤ 90 then b + 32 else b

/-- `str::eq_ignore_ascii_case`. -/
def eq_ignore_ascii_case (a b : List ℕ) : Bool :=
  a.map toLowerByte == b.map toLowerByte

/-- One hex digit of `u8::from_str_radix(_, 16)`. -/
def hexVal (c : ℕ) : Option ℕ :=
  if 48 ≤ c ∧ c ≤ 57 then some (c - 48)
  else if 97 ≤ c ∧ c ≤ 102 then some (c - 87)
  else if 65 ≤ c ∧ c ≤ 70 then some (c - 55)
  else none

def decodeHexPairs : List ℕ → Option (List ℕ)
  | [] => some []
  | c1 :: c2 :: rest =>
    match hexVal c1, hexVal c2, decodeHexPairs rest with
    | some hi, some lo, some tail => some ((hi * 16 + lo) :: tail)
    | _, _, _ => none
  | [_] => none

/-- `decode_hex` (report lines 191-204). -/
def decode_hex (value : List ℕ) : Except String (List ℕ) :=
  let v := trimAscii value
  if v.length % 2 ≠ 0 then .error "signing key hex must be even length"
  else
    match decodeHexPairs v with
    | some bytes => .ok bytes
    | none => .error "invalid hex"

/-- `hmac_sha256` (report lines 206-235); SHA-256 digests are 32 bytes, so
    the 64-byte key block always has room for the hashed key. -/
def hmac_sha256 (sha : List ℕ → List ℕ) (key message : List ℕ) : List ℕ :=
  let base := if key.length > 64 then sha key else key
  let key_block := (base ++ List.replicate 64 0).take 64
  let o_key := key_block.map fun b => b ^^^ 92
  let i_key := key_block.map fun b => b ^^^ 54
  let inner := sha (i_key ++ message)
  sha (o_key ++ inner)

/-- Rust `struct ManifestEntry` (the `sha256` hex string as ASCII bytes). -/
structure ManifestEntry where
  path : List ℕ
  bytes : ℕ
  sha256 : List ℕ
deriving DecidableEq, Repr

/-- Rust `struct Manifest`. -/
structure Manifest where
  run_id : List ℕ
  entries : List ManifestEntry
deriving DecidableEq, Repr

/-- One entry of `build_manifest` (report lines 159-189): read the file,
    record its name, length and hex SHA-256. -/
def entryFor (sha : List ℕ → List ℕ) (files : Files) (name : List ℕ) : ManifestEntry :=
  let data := (files name).getD []
  ⟨name, data.length, to_hex (sha data)⟩

/-- `build_manifest`: the three canonical files then the artifacts, in
    write order. -/
def build_manifest (sha : List ℕ → List ℕ) (run_id : List ℕ) (files : Files)
    (artifact_names : List (List ℕ)) : Manifest :=
  ⟨run_id, ([deviceGraphName, runJsonName, logsName] ++ artifact_names).map
    (entryFor sha files)⟩

/-- The three canonical writes of
    `create_report_bundle_with_meta_signing_and_artifacts`
    (report lines 76-97). -/
def write_canonical (graphBytes runJsonBytes logsBytes : List ℕ) : Files :=
  writeFile (writeFile (writeFile emptyFiles deviceGraphName graphBytes)
    runJsonName runJsonBytes) logsName logsBytes

/-- The artifact write loop (report lines 99-107): reject names holding a
    path separator, else write. -/
def write_artifacts (files : Files) : List (List ℕ × List ℕ) → Except String Files
  | [] => .ok files
  | a :: rest =>
    if a.1.contains 47 || a.1.contains 92 then
      .error "artifact name must be a filename only"
    else
      write_artifacts (writeFile files a.1 a.2) rest

/-- Embedding of `create_report_bundle_with_meta_signing_and_artifacts`
    (report lines 58-136): canonical writes, artifact writes, manifest
    built from the files on disk at that point, manifest written, then the
    optional signature. -/
def create_report_bundle_with_meta_signing_and_artifacts
    (sha : List ℕ → List ℕ) (encodeManifest : Manifest → List ℕ)
    (run_id graphBytes runJsonBytes logsBytes : List ℕ)
    (artifacts : List (List ℕ × List ℕ)) (signing_key_hex : Option (List ℕ)) :
    Except String Files :=
  match write_artifacts (write_canonical graphBytes runJsonBytes logsBytes) artifacts with
  | .error e => .error e
  | .ok files1 =>
    let manifest := build_manifest sha run_id files1 (artifacts.map Prod.fst)
    let manifestBytes := encodeManifest manifest
    let files2 := writeFile files1 manifestJsonName manifestBytes
    match signing_key_hex with
    | none => .ok files2
    | some key_hex =>
      match decode_hex key_hex with
      | .error e => .error e
      | .ok key =>
        let signature := to_hex (hmac_sha256 sha key manifestBytes)
        .ok (writeFile files2 manifestSigName signature)

/-- Rust `struct ReportVerification` (mismatch messages as ASCII bytes). -/
structure ReportVerification where
  ok : Bool
  entries_checked : ℕ
  mismatches : List (List ℕ)
  signature_valid : Option Bool
deriving DecidableEq, Repr

/-- The per-entry loop of `verify_report_bundle` (report lines 258-276):
    missing file, hash mismatch, size mismatch; `entries_checked` counts
    only present files. -/
def check_entries (sha : List ℕ → List ℕ) (files : Files) :
    List ManifestEntry → List (List ℕ) × ℕ
  | [] => ([], 0)
  | e :: rest =>
    match files e.path with
    | none =>
      let r := check_entries sha files rest
      ((strBytes "missing " ++ e.path) :: r.1, r.2)
    | some data =>
      let m1 := if to_hex (sha data) ≠ e.sha256 then
          [strBytes "hash mismatch " ++ e.path] else []
      let m2 := if data.length ≠ e.bytes then
          [strBytes "size mismatch " ++ e.path] else []
      let r := check_entries sha files rest
      (m1 ++ m2 ++ r.1, r.2 + 1)

/-- Embedding of `verify_report_bundle` (report lines 245-296). -/
def verify_report_bundle (sha : List ℕ → List ℕ)
    (decodeManifest : List ℕ → Option Manifest) (files : Files)
    (signing_key_hex : Option (List ℕ)) : Except String ReportVerification :=
  match files manifestJsonName with
  | none => .error "manifest.json not found"
  | some manifestBytes =>
    match decodeManifest manifestBytes with
    | none => .error "manifest parse error"
    | some manifest =>
      let r := check_entries sha files manifest.entries
      match files manifestSigName with
      | some sigBytes =>
        match signing_key_hex with
        | none => .error "signing key required"
        | some key_hex =>
          match decode_hex key_hex with
          | .error e => .error e
          | .ok key =>
            let expected := hmac_sha256 sha key manifestBytes
            let sv := eq_ignore_ascii_case (trimAscii sigBytes) (to_hex expected)
            .ok ⟨r.1.isEmpty && sv, r.2, r.1, some sv⟩
      | none =>
        .ok ⟨r.1.isEmpty && true, r.2, r.1, none⟩

/-- A toy stand-in for `serde_json::to_vec_pretty` used to instantiate the
    round-trip theorem and its counterexample at concrete inputs. -/
def toyEncode : Manifest → List ℕ := fun _ => [0]

def witFiles1 : Files := write_canonical [1] [2] [3]

def witManifest : Manifest := build_manifest id (strBytes "r") witFiles1 []

def witDecode : List ℕ → Option Manifest :=
  fun b => if b = [0] then some witManifest else none

/-- The artifact list of the counterexample: one artifact legally named
    `manifest.json` (the name check rejects only path separators). -/
def cexArtifacts : List (List ℕ × List ℕ) := [(manifestJsonName, [9])]

def cexFiles1 : Files :=
  match write_artifacts (write_canonical [1] [2] [3]) cexArtifacts with
  | .ok f => f
  | .error _ => emptyFiles

def cexManifest : Manifest := build_manifest id [] cexFiles1 [manifestJsonName]

def cexDecode : List ℕ → Option Manifest :=
  fun b => if b = [0] then some cexManifest else none

def cexFiles : Files :=
  match create_report_bundle_with_meta_signing_and_artifacts id toyEncode
      [] [1] [2] [3] cexArtifacts none with
  | .ok f => f
  | .error _ => emptyFiles

end Report

namespace Engine

/-! ### Device graph (crates/core/src/lib.rs) and the windows-installer-usb
    and legacy-patch steps.

    The step runners are embedded as pure functions over an environment
    that answers the external calls (host provider, filesystem, adapters).
    Each runner returns the list of `can_write_to_disk` invocations it
    performed alongside its `Result`; log-line accumulation and report file
    contents are not modelled beyond the report meta `status`. -/

/-- `char::to_ascii_lowercase`. -/
def asciiLowerChar (c : Char) : Char :=
  if 65 ≤ c.toNat ∧ c.toNat ≤ 90 then Char.ofNat (c.toNat + 32) else c

/-- `char::to_ascii_uppercase`. -/
def asciiUpperChar (c : Char) : Char :=
  if 97 ≤ c.toNat ∧ c.toNat ≤ 122 then Char.ofNat (c.toNat - 32) else c

def lowerStr (s : String) : String := ⟨s.data.map asciiLowerChar⟩

def upperStr (s : String) : String := ⟨s.data.map asciiUpperChar⟩

/-- `str::eq_ignore_ascii_case`. -/
def eqIgnoreCaseStr (a b : String) : Bool := lowerStr a == lowerStr b

/-- `str::ends_with`, on the character sequence. -/
def ends_with (s suf : String) : Bool := suf.data.isSuffixOf s.data

/-- Rust `struct Partition` (crates/core/src/lib.rs). -/
structure Partition where
  id : String
  label : Option String
  fs : Option String
  size_bytes : ℕ
  mount_points : List String

/-- Rust `struct Disk` (crates/core/src/lib.rs). -/
structure Disk where
  id : String
  friendly_name : String
  size_bytes : ℕ
  removable : Bool
  is_system_disk : Bool
  partitions : List Partition

/-- Rust `struct DeviceGraph`, reduced to the disks — the schema/host/id
    fields take no part in any embedded control flow. -/
structure DeviceGraph where
  disks : List Disk

/-- `FileEntry` of `collect_files` (workflow-engine lines 1610-1620);
    paths are their display strings. -/
structure FileEntry where
  absolute_path : String
  relative_path : String
  size : ℕ

/-- `enum FileSystem` (host-windows/src/format.rs lines 26-39). -/
inductive FileSystem where
  | Fat32
  | Ntfs
  | ExFat
deriving DecidableEq, Repr

def FileSystem.as_str : FileSystem → String
  | .Fat32 => "FAT32"
  | .Ntfs => "NTFS"
  | .ExFat => "exFAT"

/-- `normalize_mount_path` (workflow-engine lines 1668-1680), on the
    path's display string (`len` is byte length; every mount handled is
    ASCII, where character count coincides). -/
def normalize_mount_path (path : String) : String :=
  let v := if path.length = 2 ∧ ends_with path ":" then path ++ "\\" else path
  if v.length = 3 ∧ ends_with v ":\\" then v
  else if ¬ ends_with v "\\" = true ∧ ends_with v ":" = true then v ++ "\\"
  else v

/-- `parse_disk_number` (workflow-engine lines 1682-1685). -/
def parse_disk_number (id : String) : Option ℕ :=
  if Safety.starts_with id "PhysicalDrive" then
    String.toNat? ⟨id.data.drop 13⟩
  else none

/-- `extract_drive_letter` (workflow-engine lines 1687-1696). -/
def extract_drive_letter (path : String) : Option Char :=
  match path.data with
  | first :: second :: _ => if second = ':' then some (asciiUpperChar first) else none
  | _ => none

/-- Path components lower-cased with backslashes replaced, as
    `ensure_boot_files` does. -/
def normalizeRel (s : String) : String :=
  lowerStr ⟨s.data.map fun c => if c = '\\' then '/' else c⟩

/-- Embedding of `ensure_boot_files` (workflow-engine lines 2030-2050). -/
def ensure_boot_files (entries : List FileEntry) : Except String Unit :=
  let has_boot_wim := entries.any fun e =>
    normalizeRel e.relative_path == "sources/boot.wim"
  let has_efi := entries.any fun e =>
    Safety.starts_with (normalizeRel e.relative_path) "efi/boot/"
      && ends_with (normalizeRel e.relative_path) ".efi"
  if has_boot_wim = false then .error "missing sources/boot.wim in installer source"
  else if has_efi = false then .error "missing EFI bootloader in installer source"
  else .ok ()

def FAT32_MAX_FILE : ℕ := 4294967295

/-- `max_file_size` (workflow-engine lines 2011-2013). -/
def max_file_size (entries : List FileEntry) : ℕ :=
  (entries.map FileEntry.size).foldr max 0

/-- The `target_mount` resolution block of `run_windows_installer_usb`
    (lines 208-232). -/
def resolve_target_mount (target_mount : Option String) (disk : Disk) :
    Except String String :=
  match target_mount with
  | some path =>
    let normalized := normalize_mount_path path
    if disk.partitions.any (fun part =>
        part.mount_points.any fun m => eqIgnoreCaseStr m normalized) then
      .ok normalized
    else
      .error ("target_mount " ++ normalized ++ " does not belong to disk " ++ disk.id)
  | none =>
    .ok (match (disk.partitions.flatMap Partition.mount_points).head? with
      | some m => normalize_mount_path m
      | none => "")

/-- The filesystem-label lookup of `run_windows_installer_usb`
    (lines 234-245). -/
def fs_label (disk : Disk) (target_mount : String) : Option String :=
  (disk.partitions.find? fun part =>
    part.mount_points.any fun m => eqIgnoreCaseStr m target_mount).bind
    fun part => part.fs

/-- The staging-filesystem check (lines 247-252): a present label outside
    {FAT32, NTFS, EXFAT} (upper-cased) is unsupported. -/
def unsupported_fs (disk : Disk) (target_mount : String) : Bool :=
  match fs_label disk target_mount with
  | some fs =>
    decide (upperStr fs ≠ "FAT32" ∧ upperStr fs ≠ "NTFS" ∧ upperStr fs ≠ "EXFAT")
  | none => false

/-- Rust `struct WindowsInstallerUsbParams` (source paths are resolved
    through the environment, so `source_path`/`report_base` do not appear). -/
structure WindowsInstallerUsbParams where
  target_disk_id : String
  target_mount : Option String
  force : Bool
  confirmation_token : Option String
  dry_run : Bool
  repartition : Bool
  format : Bool
  filesystem : FileSystem
  label : Option String
  driver_source : Option String
  driver_target : Option String
  hash_manifest : Bool

/-- The environment answering `run_windows_installer_usb`'s external
    calls, in source order: host provider, content resolver, filesystem
    probes, partitioning/format adapters, per-file copy and hash outcomes,
    copy verification, the driver overlay, and report creation. -/
structure WinEnv where
  graph : Except String DeviceGraph
  prepare : Except String Unit
  source_is_dir : Bool
  setup_exe_exists : Bool
  files : Except String (List FileEntry)
  prepare_usb : Except String Char
  format_volume : Except String Unit
  free_space : Option ℕ
  copy_ok : FileEntry → Bool
  hash_file : FileEntry → Except String String
  verify : Except String Unit
  driver_is_dir : Bool
  driver_entries : Except String (List FileEntry)
  driver_copy_ok : FileEntry → Bool
  report : Except String Unit

/-- The engine's per-step result trace: the report meta `status` and the
    copy counters of `WindowsInstallerUsbResult`. -/
structure WinOutcome where
  status : String
  target_mount : String
  copied_files : ℕ
  copied_bytes : ℕ
  driver_files : ℕ
  driver_bytes : ℕ
deriving DecidableEq, Repr

/-- The copy loops of `run_windows_installer_usb` (lines 347-370 and
    393-417): create-dir + copy per entry (first failure fatal), optional
    per-file hash for the manifest artifact. -/
def copyFiles (okF : FileEntry → Bool) (hashF : FileEntry → Except String String)
    (hash_manifest : Bool) (destRoot : String) :
    List FileEntry → Except String (ℕ × ℕ)
  | [] => .ok (0, 0)
  | e :: rest =>
    if okF e = false then
      .error ("copy " ++ e.absolute_path ++ " to " ++ destRoot ++ "\\" ++ e.relative_path)
    else
      match (if hash_manifest then hashF e else .ok "") with
      | .error msg => .error msg
      | .ok _ =>
        match copyFiles okF hashF hash_manifest destRoot rest with
        | .error msg => .error msg
        | .ok (cf, cb) => .ok (cf + 1, cb + e.size)

/-- The body of `run_windows_installer_usb` after the safety gate allowed
    (lines 312-470): repartition or format, mount check, free-space check,
    copy, verify, optional driver overlay, report. -/
def winAfterGate (p : WindowsInstallerUsbParams) (env : WinEnv) (disk : Disk)
    (target_mount0 : String) (total_bytes : ℕ) (files : List FileEntry) :
    Except String WinOutcome :=
  match (if p.repartition then
      match parse_disk_number disk.id with
      | none => .error ("invalid disk id " ++ disk.id)
      | some _ =>
        match env.prepare_usb with
        | .error e => .error e
        | .ok letter => .ok (normalize_mount_path (String.mk [letter] ++ ":\\"))
    else if p.format then
      match extract_drive_letter target_mount0 with
      | none => .error "unable to parse drive letter from mount path"
      | some _ =>
        match env.format_volume with
        | .error e => .error e
        | .ok _ => .ok target_mount0
    else .ok target_mount0 : Except String String) with
  | .error e => .error e
  | .ok target_mount =>
    if target_mount = "" then .error ("no mounted volume found for " ++ disk.id)
    else if (match env.free_space with
        | some free => decide (free < total_bytes)
        | none => false) = true then
      .error ("insufficient free space: required " ++ toString total_bytes ++
        ", available " ++ toString ((env.free_space).getD 0))
    else
      match copyFiles env.copy_ok env.hash_file p.hash_manifest target_mount files with
      | .error e => .error e
      | .ok (cf, cb) =>
        match env.verify with
        | .error e => .error e
        | .ok _ =>
          match p.driver_source with
          | some _ =>
            if env.driver_is_dir = false then .error "driver_source is not a directory"
            else
              match env.driver_entries with
              | .error e => .error e
              | .ok dents =>
                match copyFiles env.driver_copy_ok env.hash_file p.hash_manifest
                    (target_mount ++ "\\" ++
                      (p.driver_target.getD "sources\\$OEM$\\$1\\Drivers")) dents with
                | .error e => .error e
                | .ok (df, db) =>
                  match env.report with
                  | .error e => .error e
                  | .ok _ => .ok ⟨"completed", target_mount, cf, cb, df, db⟩
          | none =>
            match env.report with
            | .error e => .error e
            | .ok _ => .ok ⟨"completed", target_mount, cf, cb, 0, 0⟩

/-- Embedding of `run_windows_installer_usb` (workflow-engine lines
    189-476): the preflight (disk lookup, system/removable refusals, mount
    resolution, filesystem check, source resolution, `setup.exe`,
    `ensure_boot_files`, FAT32 size bound) runs before the dry-run split;
    only the non-dry branch consults the safety gate.  Returns the gate
    invocations alongside the result. -/
def run_windows_installer_usb (p : WindowsInstallerUsbParams) (env : WinEnv) :
    List (Safety.SafetyContext × Bool) × Except String WinOutcome :=
  match env.graph with
  | .error e => ([], .error e)
  | .ok graph =>
    match graph.disks.find? (fun d => eqIgnoreCaseStr d.id p.target_disk_id) with
    | none => ([], .error ("disk not found: " ++ p.target_disk_id))
    | some disk =>
      if disk.is_system_disk = true then
        ([], .error ("refusing to target system disk: " ++ disk.id))
      else if disk.removable = false then
        ([], .error ("target disk is not marked removable: " ++ disk.id))
      else
        match resolve_target_mount p.target_mount disk with
        | .error e => ([], .error e)
        | .ok target_mount =>
          if unsupported_fs disk target_mount = true then
            ([], .error ("unsupported filesystem for staging: " ++
              (fs_label disk target_mount).getD ""))
          else
            match env.prepare with
            | .error e => ([], .error e)
            | .ok _ =>
              if env.source_is_dir = false then
                ([], .error "source root is not a directory")
              else if env.setup_exe_exists = false then
                ([], .error "source missing setup.exe (provide extracted Windows installer files)")
              else
                match env.files with
                | .error e => ([], .error e)
                | .ok files =>
                  match ensure_boot_files files with
                  | .error e => ([], .error e)
                  | .ok _ =>
                    let total_bytes := (files.map FileEntry.size).sum
                    if (eqIgnoreCaseStr p.filesystem.as_str "FAT32" &&
                        decide (FAT32_MAX_FILE < max_file_size files)) = true then
                      ([], .error ("FAT32 cannot store files > 4GB (max file " ++
                        toString (max_file_size files) ++ " bytes). Use NTFS/exFAT."))
                    else if p.dry_run = false then
                      let ctx : Safety.SafetyContext := ⟨p.force, p.confirmation_token⟩
                      match Safety.can_write_to_disk ctx disk.is_system_disk with
                      | .Deny reason => ([(ctx, disk.is_system_disk)], .error reason)
                      | .Allow =>
                        ([(ctx, disk.is_system_disk)],
                          winAfterGate p env disk target_mount total_bytes files)
                    else
                      match env.report with
                      | .error e => ([], .error e)
                      | .ok _ => ([], .ok ⟨"dry_run", target_mount, 0, 0, 0, 0⟩)

/-- Rust `struct LegacyPatchParams` (legacy-patcher lines 10-19), with the
    paths resolved through the environment. -/
structure LegacyPatchParams where
  model : Option String
  board_id : Option String
  force : Bool
  confirmation_token : Option String
  dry_run : Bool

/-- The environment answering `run_legacy_patch`'s external calls: host
    provider, source preparation, installer-app discovery, the candidate
    plists (`none` = file absent; an inner `error` = unreadable), per-path
    write success, and report creation. -/
structure LegacyEnv where
  graph : Except String Unit
  prepare : Except String Unit
  app_found : Bool
  candidates : List (String × Option (Except String Patcher.PValue))
  write_ok : String → Bool
  report : Except String Unit

/-- The trace of a legacy-patch run: report meta `status`, the patched
    paths, and how many `to_file_xml` writes were performed. -/
structure LegacyOutcome where
  status : String
  patched_files : List String
  writes : ℕ
  dry_run : Bool
deriving DecidableEq, Repr

/-- The candidate loop of `run_legacy_patch` (legacy-patcher lines 57-76):
    skip absent files, fail on unreadable ones, patch, and — when changed
    and not a dry run — rewrite the plist. -/
def legacyLoop (p : LegacyPatchParams) (env : LegacyEnv) (model : String) :
    List (String × Option (Except String Patcher.PValue)) →
      Except String (List String × ℕ)
  | [] => .ok ([], 0)
  | (path, cand) :: rest =>
    match cand with
    | none => legacyLoop p env model rest
    | some (.error e) => .error ("read " ++ path ++ ": " ++ e)
    | some (.ok v) =>
      let r := Patcher.patchPlistValue v model p.board_id
      if r.2 = true then
        if p.dry_run = false then
          if env.write_ok path = false then .error ("write " ++ path)
          else
            match legacyLoop p env model rest with
            | .error e => .error e
            | .ok (ps, w) => .ok (path :: ps, w + 1)
        else
          match legacyLoop p env model rest with
          | .error e => .error e
          | .ok (ps, w) => .ok (path :: ps, w)
      else legacyLoop p env model rest

/-- Embedding of `run_legacy_patch` (legacy-patcher lines 28-105): the
    safety gate is consulted unconditionally — before the source is even
    prepared and regardless of `dry_run` — with `is_system_disk = false`. -/
def run_legacy_patch (p : LegacyPatchParams) (env : LegacyEnv) :
    List (Safety.SafetyContext × Bool) × Except String LegacyOutcome :=
  match env.graph with
  | .error e => ([], .error e)
  | .ok _ =>
    let ctx : Safety.SafetyContext := ⟨p.force, p.confirmation_token⟩
    match Safety.can_write_to_disk ctx false with
    | .Deny reason => ([(ctx, false)], .error reason)
    | .Allow =>
      ([(ctx, false)],
        match env.prepare with
        | .error e => .error e
        | .ok _ =>
          if env.app_found = false then .error "install macOS.app not found in source"
          else
            match legacyLoop p env (p.model.getD "UnknownModel") env.candidates with
            | .error e => .error e
            | .ok (patched, writes) =>
              match env.report with
              | .error e => .error e
              | .ok _ =>
                .ok ⟨if p.dry_run then "dry_run" else "completed",
                  patched, writes, p.dry_run⟩)

/-- A device graph with one removable, non-system disk `PhysicalDrive1`
    mounted at `E:\` — the spec's Windows-USB preflight scenario. -/
def witGraph : DeviceGraph :=
  ⟨[⟨"PhysicalDrive1", "USB", 1000, true, false,
     [⟨"p1", none, some "NTFS", 1000, ["E:\\"]⟩]⟩]⟩

def witWinParams : WindowsInstallerUsbParams :=
  ⟨"PhysicalDrive1", some "E:", false, none, true, false, false, .Ntfs,
    none, none, none, false⟩

/-- An environment whose source holds a complete installer tree. -/
def witWinEnv : WinEnv :=
  { graph := .ok witGraph
    prepare := .ok ()
    source_is_dir := true
    setup_exe_exists := true
    files := .ok [⟨"D:\\src\\sources\\boot.wim", "sources\\boot.wim", 5⟩,
                  ⟨"D:\\src\\efi\\boot\\bootx64.efi", "efi\\boot\\bootx64.efi", 3⟩]
    prepare_usb := .error "unused"
    format_volume := .ok ()
    free_space := none
    copy_ok := fun _ => true
    hash_file := fun _ => .ok ""
    verify := .ok ()
    driver_is_dir := true
    driver_entries := .ok []
    driver_copy_ok := fun _ => true
    report := .ok () }

/-- The same environment with a source lacking `sources/boot.wim`. -/
def c7Env : WinEnv :=
  { witWinEnv with files := .ok [⟨"D:\\src\\setup.exe", "setup.exe", 1⟩] }

def witLegacyParams : LegacyPatchParams :=
  ⟨some "Mac1", none, true, some "PHX-1", true⟩

def witLegacyEnv : LegacyEnv :=
  { graph := .ok ()
    prepare := .ok ()
    app_found := true
    candidates := [("a.plist", some (.ok (Patcher.PValue.dictionary [])))]
    write_ok := fun _ => true
    report := .ok () }

def cexLegacyParams : LegacyPatchParams := ⟨none, none, false, none, true⟩

def cexLegacyEnv : LegacyEnv :=
  { graph := .ok ()
    prepare := .ok ()
    app_found := true
    candidates := []
    write_ok := fun _ => true
    report := .ok () }

end Engine

/-! ## FAT32 formatter (crates/fs-fat32/src/lib.rs)

The formatter's device effects are modelled as the ordered list of
`write_sector` calls — pairs of sector number and written bytes.  The
volume id, drawn from the clock in the source, is a parameter.  All
`u32` arithmetic of the source wraps modulo 2^32, written explicitly as
`% 4294967296`: the `as u32` truncation of `total_sectors`, the
`(clusters + 2) * 4 + 511` FAT-size computation, and the sector-address
additions (`u32` `saturating_sub` is ordinary truncated `Nat`
subtraction). -/

namespace Fat32

/-- Rust `struct Fat32Layout`. -/
structure Fat32Layout where
  total_sectors : ℕ
  sectors_per_cluster : ℕ
  sectors_per_fat : ℕ
  root_dir_sector : ℕ
deriving DecidableEq, Repr

/-- The fixed-point loop of `compute_fat_size` (fs-fat32 lines 102-118).
    The source iterates until `needed == fat_size`; fuel bounds the
    iteration count, with exhaustion mapped to an error (the source would
    keep looping; every claim is conditioned on successful convergence).
    `RESERVED + NUM_FATS * fat_size` and `(clusters + 2) * 4 + 511` are
    `u32` expressions, wrapping modulo 2^32; `saturating_sub` is `Nat`
    subtraction. -/
def compute_fat_size_aux (total_sectors spc : ℕ) : ℕ → ℕ → Except String ℕ
  | 0, _ => .error "fat size iteration did not converge"
  | fuel + 1, fat_size =>
    let data_sectors := total_sectors - (32 + 2 * fat_size) % 4294967296
    let clusters := data_sectors / spc
    if clusters = 0 then .error "invalid FAT32 size"
    else
      let needed := ((clusters + 2) * 4 + (512 - 1)) % 4294967296 / 512
      if needed = fat_size then .ok fat_size
      else compute_fat_size_aux total_sectors spc fuel needed

/-- `compute_fat_size`, starting from `fat_size = 1`. -/
def compute_fat_size (total_sectors spc : ℕ) : Except String ℕ :=
  compute_fat_size_aux total_sectors spc (total_sectors + 2) 1

/-- The candidate scan of `select_sectors_per_cluster` (lines 88-100); a
    `compute_fat_size` error aborts the whole scan, as `?` does. -/
def select_aux (total_sectors : ℕ) : List ℕ → Except String ℕ
  | [] => .error "unable to select sectors per cluster for FAT32"
  | spc :: rest =>
    match compute_fat_size total_sectors spc with
    | .error e => .error e
    | .ok fat =>
      let data_sectors := total_sectors - (32 + 2 * fat) % 4294967296
      let clusters := data_sectors / spc
      if 65525 ≤ clusters ∧ clusters ≤ 0x0FFFFFF5 then .ok spc
      else select_aux total_sectors rest

def select_sectors_per_cluster (total_sectors : ℕ) : Except String ℕ :=
  select_aux total_sectors [1, 2, 4, 8, 16, 32, 64, 128]

/-- Copy `src` into `buf` starting at byte `off` (`copy_from_slice`). -/
def copy_bytes : List ℕ → ℕ → List ℕ → List ℕ
  | buf, _, [] => buf
  | buf, off, b :: rest => copy_bytes (buf.set off b) (off + 1) rest

/-- `write_u16`: little-endian. -/
def write_u16 (buf : List ℕ) (off v : ℕ) : List ℕ :=
  (buf.set off (v % 256)).set (off + 1) (v / 256 % 256)

/-- `write_u32`: little-endian. -/
def write_u32 (buf : List ℕ) (off v : ℕ) : List ℕ :=
  (((buf.set off (v % 256)).set (off + 1) (v / 256 % 256)).set
    (off + 2) (v / 65536 % 256)).set (off + 3) (v / 16777216 % 256)

/-- `write_u32_slice`: the `index`-th 32-bit entry. -/
def write_u32_slice (buf : List ℕ) (index v : ℕ) : List ℕ :=
  write_u32 buf (index * 4) v

/-- `label_bytes` (lines 238-246): up to 11 bytes of the upper-cased
    label over a space-padded field. -/
def label_bytes (label : String) : List ℕ :=
  copy_bytes (List.replicate 11 32) 0
    ((label.data.map fun c => (Engine.asciiUpperChar c).toNat).take 11)

/-- `build_boot_sector` (lines 120-162), field for field. -/
def build_boot_sector (total_sectors sectors_per_cluster sectors_per_fat
    volume_id : ℕ) (volume_label : List ℕ) : List ℕ :=
  let s := List.replicate 512 0
  let s := (s.set 0 0xEB).set 1 0x58
  let s := s.set 2 0x90
  let s := copy_bytes s 3 (Report.strBytes "PHOENIX ")
  let s := write_u16 s 0x0B 512
  let s := s.set 0x0D sectors_per_cluster
  let s := write_u16 s 0x0E 32
  let s := s.set 0x10 2
  let s := write_u16 s 0x11 0
  let s := if total_sectors < 65536 then write_u16 s 0x13 total_sectors
    else write_u16 s 0x13 0
  let s := s.set 0x15 0xF8
  let s := write_u16 s 0x16 0
  let s := write_u16 s 0x18 63
  let s := write_u16 s 0x1A 255
  let s := write_u32 s 0x1C 0
  let s := write_u32 s 0x20 total_sectors
  let s := write_u32 s 0x24 sectors_per_fat
  let s := write_u16 s 0x28 0
  let s := write_u16 s 0x2A 0
  let s := write_u32 s 0x2C 2
  let s := write_u16 s 0x30 1
  let s := write_u16 s 0x32 6
  let s := s.set 0x36 0x80
  let s := s.set 0x38 0x29
  let s := write_u32 s 0x39 volume_id
  let s := copy_bytes s 0x3D volume_label
  let s := copy_bytes s 0x47 (Report.strBytes "FAT32   ")
  let s := s.set 510 0x55
  s.set 511 0xAA

/-- `build_fsinfo` (lines 164-173). -/
def build_fsinfo : List ℕ :=
  let s := List.replicate 512 0
  let s := copy_bytes s 0 [0x52, 0x52, 0x61, 0x41]
  let s := copy_bytes s 0x1E4 [0x72, 0x72, 0x41, 0x61]
  let s := write_u32 s 0x1E8 0xFFFFFFFF
  let s := write_u32 s 0x1EC 0xFFFFFFFF
  let s := s.set 510 0x55
  s.set 511 0xAA

def zeroSector : List ℕ := List.replicate 512 0

/-- The first FAT sector of `write_fat` (lines 181-185). -/
def fat_first_sector : List ℕ :=
  write_u32_slice (write_u32_slice (write_u32_slice zeroSector 0 0x0FFFFFF8)
    1 0x0FFFFFFF) 2 0x0FFFFFFF

/-- The sector writes of `write_fat` (lines 175-197): the entry sector,
    then zero sectors for the remainder of the FAT; `start_sector +
    sector` is a `u32` addition and wraps. -/
def write_fat (start_sector sectors_per_fat : ℕ) : List (ℕ × List ℕ) :=
  (start_sector, fat_first_sector) ::
    (List.range' (start_sector + 1) (sectors_per_fat - 1)).map
      fun s => (s % 4294967296, zeroSector)

/-- The sector writes of `zero_cluster` (lines 199-205); `start_sector +
    offset` is a `u32` addition and wraps. -/
def zero_cluster (start_sector spc : ℕ) : List (ℕ × List ℕ) :=
  (List.range' start_sector spc).map fun s => (s % 4294967296, zeroSector)

/-- The 32-byte directory entry of `write_volume_label` (lines 207-217). -/
def volume_label_entry (label : List ℕ) : List ℕ :=
  (copy_bytes (List.replicate 32 0) 0 label).set 11 0x08

/-- Embedding of `format_fat32` (lines 23-86): size checks, geometry
    selection, then the ordered sector writes — boot sector at 0 and 6,
    FSINFO at 1 and 7, two FATs from sector 32, the zeroed root cluster,
    and the volume-label entry when the label is nonblank.
    `total_sectors` is `(total_bytes / 512) as u32`, a truncating cast;
    `data_start`, `root_dir_sector` and the second FAT start are `u32`
    sums and wrap. -/
def format_fat32 (total_bytes volume_id : ℕ) (label : Option String) :
    Except String (Fat32Layout × List (ℕ × List ℕ)) :=
  if total_bytes < 512 * 1000 then .error "device too small for FAT32"
  else if total_bytes % 512 ≠ 0 then .error "device size must be multiple of 512 bytes"
  else
    let total_sectors := total_bytes / 512 % 4294967296
    match select_sectors_per_cluster total_sectors with
    | .error e => .error e
    | .ok sectors_per_cluster =>
      match compute_fat_size total_sectors sectors_per_cluster with
      | .error e => .error e
      | .ok sectors_per_fat =>
        let data_start := (32 + 2 * sectors_per_fat) % 4294967296
        let root_dir_sector :=
          (data_start + (2 - 2) * sectors_per_cluster) % 4294967296
        let volume_label := label_bytes (label.getD "PHOENIX")
        let boot_sector := build_boot_sector total_sectors sectors_per_cluster
          sectors_per_fat volume_id volume_label
        let writes :=
          [(0, boot_sector), (6, boot_sector), (1, build_fsinfo), (7, build_fsinfo)]
          ++ write_fat 32 sectors_per_fat
          ++ write_fat ((32 + sectors_per_fat) % 4294967296) sectors_per_fat
          ++ zero_cluster root_dir_sector sectors_per_cluster
          ++ (if volume_label.all (fun b => b = 32) then []
              else [(root_dir_sector, volume_label_entry volume_label)])
        .ok (⟨total_sectors, sectors_per_cluster, sectors_per_fat, root_dir_sector⟩,
          writes)

/-- The data written to sector `s`, in write order. -/
def writesTo (ws : List (ℕ × List ℕ)) (s : ℕ) : List (List ℕ) :=
  (ws.filter fun w => w.1 == s).map Prod.snd

end Fat32

/-! ## Theorems about the safety gate and the chunk planner -/

namespace Imaging

theorem makeChunkPlanAux_sizes_sum (total chunkSize : ℕ) (hc : 0 < chunkSize) :
    ∀ fuel offset index, total - offset ≤ fuel →
      ((makeChunkPlanAux total chunkSize fuel offset index).map Chunk.size).sum
        = total - offset := by
  intro fuel
  induction fuel with
  | zero =>
    intro offset index h
    simp [makeChunkPlanAux, Nat.le_zero.mp h]
  | succ n ih =>
    intro offset index h
    by_cases ho : offset < total
    · have hsz : 0 < min (total - offset) chunkSize := by
        exact lt_min (Nat.sub_pos_of_lt ho) hc
      have hle : min (total - offset) chunkSize ≤ total - offset := Nat.min_le_left _ _
      have hrec : total - (offset + min (total - offset) chunkSize) ≤ n := by
        have : total - (offset + min (total - offset) chunkSize)
            = (total - offset) - min (total - offset) chunkSize := by
          omega
        omega
      simp only [makeChunkPlanAux, if_pos ho, List.map_cons, List.sum_cons]
      rw [ih _ (index + 1) hrec]
      omega
    · simp [makeChunkPlanAux, if_neg ho, Nat.sub_eq_zero_of_le (Nat.le_of_not_lt ho)]

theorem makeChunkPlanAux_length (total chunkSize : ℕ) (hc : 0 < chunkSize) :
    ∀ fuel offset index, total - offset ≤ fuel →
      (makeChunkPlanAux total chunkSize fuel offset index).length
        = ((total - offset) + chunkSize - 1) / chunkSize := by
  intro fuel
  induction fuel with
  | zero =>
    intro offset index h
    have h0 : total - offset = 0 := Nat.le_zero.mp h
    simp only [makeChunkPlanAux, List.length_nil, h0]
    exact (Nat.div_eq_of_lt (by omega)).symm
  | succ n ih =>
    intro offset index h
    by_cases ho : offset < total
    · have hr : 0 < total - offset := Nat.sub_pos_of_lt ho
      have hrec : total - (offset + min (total - offset) chunkSize) ≤ n := by
        have hsz : 0 < min (total - offset) chunkSize := lt_min hr hc
        omega
      simp only [makeChunkPlanAux, if_pos ho, List.length_cons]
      rw [ih _ (index + 1) hrec]
      have hsub : total - (offset + min (total - offset) chunkSize)
          = (total - offset) - min (total - offset) chunkSize := by omega
      rw [hsub]
      rcases le_or_lt (total - offset) chunkSize with hle | hlt
      · have hmin : min (total - offset) chunkSize = total - offset := min_eq_left hle
        rw [hmin]
        have h1 : (total - offset) - (total - offset) = 0 := Nat.sub_self _
        rw [h1]
        have h2 : (0 + chunkSize - 1) / chunkSize = 0 :=
          Nat.div_eq_of_lt (by omega)
        rw [h2]
        have h3 : ((total - offset) + chunkSize - 1) / chunkSize = 1 :=
          Nat.div_eq_of_lt_le (by omega) (by omega)
        omega
      · have hmin : min (total - offset) chunkSize = chunkSize :=
          min_eq_right (Nat.le_of_lt hlt)
        rw [hmin]
        have h4 : (total - offset) + chunkSize - 1
            = ((total - offset) - chunkSize + chunkSize - 1) + chunkSize := by omega
        rw [h4, Nat.add_div_right _ hc]
    · have h0 : total - offset = 0 := by omega
      simp only [makeChunkPlanAux, if_neg ho, List.length_nil, h0]
      exact (Nat.div_eq_of_lt (by omega)).symm

theorem makeChunkPlanAux_indices (total chunkSize : ℕ) :
    ∀ fuel offset index,
      (makeChunkPlanAux total chunkSize fuel offset index).map Chunk.index
        = List.range' index (makeChunkPlanAux total chunkSize fuel offset index).length := by
  intro fuel
  induction fuel with
  | zero => intro offset index; simp [makeChunkPlanAux]
  | succ n ih =>
    intro offset index
    by_cases ho : offset < total
    · simp only [makeChunkPlanAux, if_pos ho, List.map_cons, List.length_cons]
      rw [ih]
      rfl
    · simp [makeChunkPlanAux, if_neg ho]

theorem makeChunkPlanAux_offsets (total chunkSize : ℕ) :
    ∀ fuel offset index,
      offsetsFrom offset (makeChunkPlanAux total chunkSize fuel offset index) := by
  intro fuel
  induction fuel with
  | zero => intro offset index; simp [makeChunkPlanAux, offsetsFrom]
  | succ n ih =>
    intro offset index
    by_cases ho : offset < total
    · simp only [makeChunkPlanAux, if_pos ho]
      exact ⟨rfl, ih _ _⟩
    · simp [makeChunkPlanAux, if_neg ho, offsetsFrom]

theorem makeChunkPlanAux_size_le (total chunkSize : ℕ) :
    ∀ fuel offset index ch, ch ∈ makeChunkPlanAux total chunkSize fuel offset index →
      ch.size ≤ chunkSize := by
  intro fuel
  induction fuel with
  | zero => intro offset index ch h; simp [makeChunkPlanAux] at h
  | succ n ih =>
    intro offset index ch h
    by_cases ho : offset < total
    · simp only [makeChunkPlanAux, if_pos ho, List.mem_cons] at h
      rcases h with h | h
      · subst h; exact Nat.min_le_right _ _
      · exact ih _ _ _ h
    · simp [makeChunkPlanAux, if_neg ho] at h

theorem makeChunkPlanAux_nonempty_start (total chunkSize : ℕ) :
    ∀ fuel offset index,
      makeChunkPlanAux total chunkSize fuel offset index ≠ [] → offset < total := by
  intro fuel offset index h
  cases fuel with
  | zero => simp [makeChunkPlanAux] at h
  | succ n =>
    by_cases ho : offset < total
    · exact ho
    · simp [makeChunkPlanAux, if_neg ho] at h

theorem makeChunkPlanAux_full_sizes (total chunkSize : ℕ) :
    ∀ fuel offset index i ch,
      (makeChunkPlanAux total chunkSize fuel offset index)[i]? = some ch →
      i + 1 < (makeChunkPlanAux total chunkSize fuel offset index).length →
      ch.size = chunkSize := by
  intro fuel
  induction fuel with
  | zero => intro offset index i ch h _; simp [makeChunkPlanAux] at h
  | succ n ih =>
    intro offset index i ch h hlen
    by_cases ho : offset < total
    · simp only [makeChunkPlanAux, if_pos ho] at h hlen
      cases i with
      | zero =>
        rw [List.getElem?_cons_zero] at h
        injection h with h
        subst h
        simp only [List.length_cons] at hlen
        have htne : makeChunkPlanAux total chunkSize n
            (offset + min (total - offset) chunkSize) (index + 1) ≠ [] := by
          intro hnil
          rw [hnil] at hlen
          simp at hlen
        have hlt : offset + min (total - offset) chunkSize < total :=
          makeChunkPlanAux_nonempty_start total chunkSize n _ _ htne
        show min (total - offset) chunkSize = chunkSize
        rcases le_or_lt chunkSize (total - offset) with hcase | hcase
        · exact min_eq_right hcase
        · exfalso
          have hmin : min (total - offset) chunkSize = total - offset :=
            min_eq_left (Nat.le_of_lt hcase)
          rw [hmin] at hlt
          omega
      | succ j =>
        rw [List.getElem?_cons_succ] at h
        simp only [List.length_cons, Nat.succ_lt_succ_iff] at hlen
        exact ih _ (index + 1) j ch h hlen
    · simp [makeChunkPlanAux, if_neg ho] at h

theorem devBytes_append (d : Device) (pos a b : ℕ) :
    devBytes d pos a ++ devBytes d (pos + a) b = devBytes d pos (a + b) := by
  unfold devBytes
  rw [List.range_add, List.map_append, List.map_map]
  congr 1
  apply List.map_congr_left
  intro i _
  simp [Function.comp, Nat.add_assoc]

theorem unixChunkRead_ok (d : Device) (bufLen : ℕ) :
    ∀ fuel pos remaining, remaining ≤ fuel →
      ∀ bs, unixChunkRead d bufLen fuel pos remaining = .ok bs →
        bs = devBytes d pos remaining := by
  intro fuel
  induction fuel with
  | zero =>
    intro pos remaining hle bs h
    have h0 : remaining = 0 := Nat.le_zero.mp hle
    subst h0
    simp only [unixChunkRead] at h
    injection h with h
    subst h
    rfl
  | succ n ih =>
    intro pos remaining hle bs h
    by_cases h0 : remaining = 0
    · subst h0
      simp only [unixChunkRead, if_pos rfl] at h
      injection h with h
      subst h
      rfl
    · simp only [unixChunkRead, if_neg h0] at h
      by_cases hg : devRead d pos (min remaining bufLen) = 0
      · rw [if_pos hg] at h
        exact absurd h (by simp)
      · rw [if_neg hg] at h
        have hgle : devRead d pos (min remaining bufLen) ≤ remaining :=
          le_trans (Nat.min_le_right _ _) (Nat.min_le_left _ _)
        have hrec : remaining - devRead d pos (min remaining bufLen) ≤ n := by
          have : 0 < devRead d pos (min remaining bufLen) := Nat.pos_of_ne_zero hg
          omega
        cases hx : unixChunkRead d bufLen n (pos + devRead d pos (min remaining bufLen))
            (remaining - devRead d pos (min remaining bufLen)) with
        | error e => rw [hx] at h; exact absurd h (by simp)
        | ok rest =>
          rw [hx] at h
          injection h with h
          subst h
          rw [ih _ _ hrec rest hx, devBytes_append]
          congr 1
          omega

theorem unixHashChunks_ok (sha : List ℕ → List ℕ) (d : Device) (chunk_size : ℕ) :
    ∀ chunks rs, unixHashChunks sha d chunk_size chunks = .ok rs →
      rs = chunks.map fun c => (c.index, to_hex (sha (devBytes d c.offset c.size))) := by
  intro chunks
  induction chunks with
  | nil =>
    intro rs h
    injection h with h
    subst h
    rfl
  | cons ch rest ih =>
    intro rs h
    simp only [unixHashChunks] at h
    by_cases hs : d.seekOk ch.offset = false
    · rw [if_pos hs] at h; exact absurd h (by simp)
    · rw [if_neg hs] at h
      cases hr : unixChunkRead d chunk_size ch.size ch.offset ch.size with
      | error e => rw [hr] at h; exact absurd h (by simp)
      | ok bytes =>
        rw [hr] at h
        cases ht : unixHashChunks sha d chunk_size rest with
        | error e => rw [ht] at h; exact absurd h (by simp)
        | ok tail =>
          rw [ht] at h
          injection h with h
          subst h
          rw [unixChunkRead_ok d chunk_size ch.size ch.offset ch.size le_rfl bytes hr,
            List.map_cons, ih tail ht]

/-- From consistent offsets, each chunk's offset is the sum of the sizes of
    the prior chunks plus the starting offset. -/
theorem offsetsFrom_getElem (l : List Chunk) :
    ∀ o, offsetsFrom o l →
      ∀ i ch, l[i]? = some ch →
        ch.offset = o + ((l.take i).map Chunk.size).sum := by
  induction l with
  | nil => intro o _ i ch h; simp at h
  | cons c0 t ih =>
    intro o hoff i ch h
    rcases hoff with ⟨h0, ht⟩
    cases i with
    | zero =>
      rw [List.getElem?_cons_zero] at h
      injection h with h
      subst h
      simpa using h0
    | succ j =>
      rw [List.getElem?_cons_succ] at h
      have := ih (o + c0.size) ht j ch h
      rw [List.take_succ_cons, List.map_cons, List.sum_cons, this]
      omega

end Imaging

/-- C1: the safety gate evaluates its rules in order with first deny
    winning — no force-mode yields the force-mode denial, a missing token
    the missing-token denial, a token without the `PHX-` prefix the
    invalid-token denial, and otherwise Allow — and the truth table
    (None,false)→Deny, (None,true)→Deny, ("BAD",true)→Deny,
    ("PHX-x",false)→Deny, ("PHX-x",true)→Allow holds. -/
theorem safety_gate_first_deny_wins :
    (∀ (ctx : Safety.SafetyContext) (sys : Bool),
      Safety.can_write_to_disk ctx sys =
        if ctx.force_mode = false then
          .Deny "Denied: destructive ops require force-mode"
        else match ctx.confirmation_token with
          | none => .Deny "Denied: confirmation token missing"
          | some token =>
            if Safety.starts_with token "PHX-" = false then
              .Deny "Denied: invalid confirmation token"
            else .Allow) ∧
    (∀ sys, Safety.can_write_to_disk ⟨false, none⟩ sys =
      .Deny "Denied: destructive ops require force-mode") ∧
    (∀ sys, Safety.can_write_to_disk ⟨true, none⟩ sys =
      .Deny "Denied: confirmation token missing") ∧
    (∀ sys, Safety.can_write_to_disk ⟨true, some "BAD"⟩ sys =
      .Deny "Denied: invalid confirmation token") ∧
    (∀ sys, Safety.can_write_to_disk ⟨false, some "PHX-x"⟩ sys =
      .Deny "Denied: destructive ops require force-mode") ∧
    (∀ sys, Safety.can_write_to_disk ⟨true, some "PHX-x"⟩ sys = .Allow) := by
  refine ⟨?_, ?_, ?_, ?_, ?_, ?_⟩
  · intro ctx sys
    rcases ctx with ⟨force, token⟩
    cases force
    · rfl
    · cases token with
      | none => rfl
      | some t =>
        cases hp : Safety.starts_with t "PHX-" <;> cases sys <;>
          simp [Safety.can_write_to_disk, hp]
  · intro sys; rfl
  · intro sys; rfl
  · intro sys; cases sys <;> rfl
  · intro sys; rfl
  · intro sys; cases sys <;> rfl

/-- C9: `can_write_to_disk` ignores its `is_system_disk` argument — the
    decision for a system-disk target is always the same as for a
    non-system target, so the gate alone never protects the system disk. -/
theorem safety_gate_ignores_system_flag (ctx : Safety.SafetyContext) :
    Safety.can_write_to_disk ctx true = Safety.can_write_to_disk ctx false := by
  rcases ctx with ⟨force, token⟩
  cases force <;> cases token <;> simp [Safety.can_write_to_disk]

/-- Witness for C9 at a concrete context. -/
theorem safety_gate_ignores_system_flag_witness :
    Safety.can_write_to_disk ⟨true, some "PHX-x"⟩ true =
      Safety.can_write_to_disk ⟨true, some "PHX-x"⟩ false :=
  safety_gate_ignores_system_flag ⟨true, some "PHX-x"⟩

/-- C3: for `chunk_size > 0` the plan has exactly ⌈total/chunk_size⌉
    chunks, chunk `i` carries index `i` and starts at the sum of the prior
    sizes, the sizes sum to `total` and never exceed `chunk_size`, every
    chunk but the last is exactly `chunk_size`; a zero `total` or
    `chunk_size` yields an empty plan. -/
theorem make_chunk_plan_spec (total c : ℕ) :
    (0 < c →
      (Imaging.make_chunk_plan total c).chunks.length = (total + c - 1) / c ∧
      (Imaging.make_chunk_plan total c).chunks.map Imaging.Chunk.index
        = List.range ((Imaging.make_chunk_plan total c).chunks.length) ∧
      (∀ i ch, (Imaging.make_chunk_plan total c).chunks[i]? = some ch →
        ch.offset
          = (((Imaging.make_chunk_plan total c).chunks.take i).map Imaging.Chunk.size).sum) ∧
      ((Imaging.make_chunk_plan total c).chunks.map Imaging.Chunk.size).sum = total ∧
      (∀ ch ∈ (Imaging.make_chunk_plan total c).chunks, ch.size ≤ c) ∧
      (∀ i ch, (Imaging.make_chunk_plan total c).chunks[i]? = some ch →
        i + 1 < (Imaging.make_chunk_plan total c).chunks.length → ch.size = c)) ∧
    ((total = 0 ∨ c = 0) → (Imaging.make_chunk_plan total c).chunks = []) := by
  constructor
  · intro hc
    have hcne : c ≠ 0 := Nat.pos_iff_ne_zero.mp hc
    have hplan : (Imaging.make_chunk_plan total c).chunks
        = Imaging.makeChunkPlanAux total c total 0 0 := by
      simp [Imaging.make_chunk_plan, hcne]
    refine ⟨?_, ?_, ?_, ?_, ?_, ?_⟩
    · rw [hplan, Imaging.makeChunkPlanAux_length total c hc total 0 0 (by omega)]
      norm_num
    · rw [hplan, Imaging.makeChunkPlanAux_indices]
      rw [List.range_eq_range']
    · intro i ch h
      rw [hplan] at h ⊢
      have := Imaging.offsetsFrom_getElem (Imaging.makeChunkPlanAux total c total 0 0) 0
        (Imaging.makeChunkPlanAux_offsets total c total 0 0) i ch h
      simpa using this
    · rw [hplan, Imaging.makeChunkPlanAux_sizes_sum total c hc total 0 0 (by omega)]
      omega
    · intro ch hch
      rw [hplan] at hch
      exact Imaging.makeChunkPlanAux_size_le total c total 0 0 ch hch
    · intro i ch h hlen
      rw [hplan] at h hlen
      exact Imaging.makeChunkPlanAux_full_sizes total c total 0 0 i ch h hlen
  · intro h
    rcases h with h | h
    · subst h
      by_cases hc : c = 0
      · simp [Imaging.make_chunk_plan, hc]
      · simp [Imaging.make_chunk_plan, hc, Imaging.makeChunkPlanAux]
    · subst h
      simp [Imaging.make_chunk_plan]

/-- Witness for C3: the chunk plan of (10, 3) — the spec's concrete
    scenario — and the empty plan at total 0. -/
theorem make_chunk_plan_spec_witness :
    ((Imaging.make_chunk_plan 10 3).chunks.map Imaging.Chunk.size).sum = 10 ∧
    (Imaging.make_chunk_plan 10 3).chunks.length = (10 + 3 - 1) / 3 ∧
    (Imaging.make_chunk_plan 0 3).chunks = [] :=
  ⟨((make_chunk_plan_spec 10 3).1 (by decide)).2.2.2.1,
   ((make_chunk_plan_spec 10 3).1 (by decide)).1,
   (make_chunk_plan_spec 0 3).2 (Or.inl rfl)⟩

namespace Patcher

theorem dict_get_nil (k : String) : dict_get [] k = none := rfl

theorem dict_get_cons (f : String × PValue) (t : List (String × PValue)) (k : String) :
    dict_get (f :: t) k = if f.1 = k then some f.2 else dict_get t k := by
  by_cases h : f.1 = k
  · simp [dict_get, List.find?_cons_of_pos, h]
  · have hb : (f.1 == k) = false := beq_eq_false_iff_ne.mpr h
    simp [dict_get, List.find?_cons_of_neg, hb, h]

theorem dict_get_append_of_none (fields l : List (String × PValue)) (k : String)
    (h : dict_get fields k = none) : dict_get (fields ++ l) k = dict_get l k := by
  induction fields with
  | nil => rfl
  | cons f t ih =>
    rw [dict_get_cons] at h
    by_cases hf : f.1 = k
    · rw [if_pos hf] at h; exact absurd h (by simp)
    · rw [if_neg hf] at h
      rw [List.cons_append, dict_get_cons, if_neg hf]
      exact ih h

theorem dict_get_append_of_some (fields l : List (String × PValue)) (k : String)
    (w : PValue) (h : dict_get fields k = some w) :
    dict_get (fields ++ l) k = some w := by
  induction fields with
  | nil => simp [dict_get_nil] at h
  | cons f t ih =>
    rw [dict_get_cons] at h
    rw [List.cons_append, dict_get_cons]
    by_cases hf : f.1 = k
    · rw [if_pos hf] at h; rw [if_pos hf]; exact h
    · rw [if_neg hf] at h; rw [if_neg hf]; exact ih h

theorem dict_get_set_same (fields : List (String × PValue)) (k : String)
    (w v : PValue) (h : dict_get fields k = some w) :
    dict_get (dict_set fields k v) k = some v := by
  induction fields with
  | nil => simp [dict_get_nil] at h
  | cons f t ih =>
    rw [dict_get_cons] at h
    by_cases hf : f.1 = k
    · have hb : (f.1 == k) = true := beq_iff_eq.mpr hf
      simp only [dict_set, if_pos hb]
      rw [dict_get_cons, if_pos hf]
    · have hb : (f.1 == k) = false := beq_eq_false_iff_ne.mpr hf
      rw [if_neg hf] at h
      simp only [dict_set, hb, Bool.false_eq_true, if_false]
      rw [dict_get_cons, if_neg hf]
      exact ih h

theorem dict_get_set_other (fields : List (String × PValue)) (k' k : String)
    (v : PValue) (hne : k' ≠ k) :
    dict_get (dict_set fields k' v) k = dict_get fields k := by
  induction fields with
  | nil => rfl
  | cons f t ih =>
    by_cases hf : f.1 = k'
    · have hb : (f.1 == k') = true := beq_iff_eq.mpr hf
      simp only [dict_set, if_pos hb]
      rw [dict_get_cons, dict_get_cons]
      have : f.1 ≠ k := by rw [hf]; exact hne
      rw [if_neg this, if_neg this]
    · have hb : (f.1 == k') = false := beq_eq_false_iff_ne.mpr hf
      simp only [dict_set, hb, Bool.false_eq_true, if_false]
      rw [dict_get_cons, dict_get_cons]
      by_cases hk : f.1 = k
      · rw [if_pos hk, if_pos hk]
      · rw [if_neg hk, if_neg hk]; exact ih

/-- The dictionary branch of `updateArrayAtKey` always leaves the key
    present. -/
theorem fields1_get_isSome (fields : List (String × PValue)) (key : String) :
    ∃ w, dict_get
      (if (dict_get fields key).isSome then fields else fields ++ [(key, .array [])])
      key = some w := by
  by_cases hs : (dict_get fields key).isSome
  · rcases Option.isSome_iff_exists.mp hs with ⟨w, hw⟩
    exact ⟨w, by rw [if_pos hs]; exact hw⟩
  · have hnone : dict_get fields key = none := Option.not_isSome_iff_eq_none.mp hs
    refine ⟨.array [], ?_⟩
    rw [if_neg hs, dict_get_append_of_none _ _ _ hnone, dict_get_cons]
    simp

/-- A settled key is a no-op for `updateArrayAtKey`. -/
theorem updateArrayAtKey_of_settled (v : PValue) (key e : String)
    (h : keySettled v key e) : updateArrayAtKey v key e = (v, false) := by
  cases v with
  | string s => rfl
  | array xs => rfl
  | other n => rfl
  | dictionary fields =>
    rcases h fields rfl with ⟨w, hw, harr⟩
    have hs : (dict_get fields key).isSome = true := by rw [hw]; rfl
    simp only [updateArrayAtKey]
    rw [if_pos hs, hw]
    cases w with
    | array xs =>
      dsimp only
      rw [harr xs rfl, if_pos rfl]
    | string s => rfl
    | dictionary d => rfl
    | other n => rfl

/-- After `updateArrayAtKey` the key is settled. -/
theorem updateArrayAtKey_settles (v : PValue) (key e : String) :
    keySettled (updateArrayAtKey v key e).1 key e := by
  cases v with
  | string s => intro fields hf; exact PValue.noConfusion hf
  | array xs => intro fields hf; exact PValue.noConfusion hf
  | other n => intro fields hf; exact PValue.noConfusion hf
  | dictionary fields =>
    rcases fields1_get_isSome fields key with ⟨w, hw⟩
    simp only [updateArrayAtKey]
    rw [hw]
    cases w with
    | array xs =>
      dsimp only
      by_cases hany : (xs.any fun item => item.as_string == some e) = true
      · rw [hany, if_pos rfl]
        intro fields' hf'
        injection hf' with hf'
        subst hf'
        exact ⟨.array xs, hw, fun ys hys => by injection hys with hys; subst hys; exact hany⟩
      · rw [if_neg hany]
        intro fields' hf'
        injection hf' with hf'
        subst hf'
        refine ⟨.array (xs ++ [.string e]), dict_get_set_same _ _ _ _ hw, ?_⟩
        intro ys hys
        injection hys with hys
        subst hys
        simp [PValue.as_string]
    | string s =>
      intro fields' hf'
      injection hf' with hf'
      subst hf'
      exact ⟨.string s, hw, fun ys hys => PValue.noConfusion hys⟩
    | dictionary d =>
      intro fields' hf'
      injection hf' with hf'
      subst hf'
      exact ⟨.dictionary d, hw, fun ys hys => PValue.noConfusion hys⟩
    | other n =>
      intro fields' hf'
      injection hf' with hf'
      subst hf'
      exact ⟨.other n, hw, fun ys hys => PValue.noConfusion hys⟩

/-- Updating a different key preserves settledness. -/
theorem updateArrayAtKey_preserves (v : PValue) (k k' e e' : String) (hne : k' ≠ k)
    (h : keySettled v k e) : keySettled (updateArrayAtKey v k' e').1 k e := by
  cases v with
  | string s => exact h
  | array xs => exact h
  | other n => exact h
  | dictionary fields =>
    rcases h fields rfl with ⟨w, hw, harr⟩
    have hw1 : dict_get
        (if (dict_get fields k').isSome then fields else fields ++ [(k', .array [])])
        k = some w := by
      by_cases hs : (dict_get fields k').isSome
      · rw [if_pos hs]; exact hw
      · rw [if_neg hs]; exact dict_get_append_of_some _ _ _ _ hw
    rcases fields1_get_isSome fields k' with ⟨w', hw'⟩
    simp only [updateArrayAtKey]
    rw [hw']
    cases w' with
    | array xs =>
      dsimp only
      by_cases hany : (xs.any fun item => item.as_string == some e') = true
      · rw [hany, if_pos rfl]
        intro fields' hf'
        injection hf' with hf'
        subst hf'
        exact ⟨w, hw1, harr⟩
      · rw [if_neg hany]
        intro fields' hf'
        injection hf' with hf'
        subst hf'
        refine ⟨w, ?_, harr⟩
        rw [dict_get_set_other _ _ _ _ hne]
        exact hw1
    | string s =>
      intro fields' hf'
      injection hf' with hf'
      subst hf'
      exact ⟨w, hw1, harr⟩
    | dictionary d =>
      intro fields' hf'
      injection hf' with hf'
      subst hf'
      exact ⟨w, hw1, harr⟩
    | other n =>
      intro fields' hf'
      injection hf' with hf'
      subst hf'
      exact ⟨w, hw1, harr⟩

theorem update_plist_arrays_noop (ks : List String) :
    ∀ (v : PValue) (e : String), (∀ k ∈ ks, keySettled v k e) →
      update_plist_arrays v ks e = (v, false) := by
  induction ks with
  | nil => intro v e _; rfl
  | cons k0 ks ih =>
    intro v e h
    have h1 : updateArrayAtKey v k0 e = (v, false) :=
      updateArrayAtKey_of_settled v k0 e (h k0 (List.mem_cons_self _ _))
    have h2 : update_plist_arrays v ks e = (v, false) :=
      ih v e (fun k hk => h k (List.mem_cons_of_mem _ hk))
    simp [update_plist_arrays, h1, h2]

theorem update_plist_arrays_preserves (ks : List String) :
    ∀ (v : PValue) (k e e' : String), k ∉ ks → keySettled v k e →
      keySettled (update_plist_arrays v ks e').1 k e := by
  induction ks with
  | nil => intro v k e e' _ h; exact h
  | cons k0 ks ih =>
    intro v k e e' hk h
    have hne : k0 ≠ k := fun hc => hk (hc ▸ List.mem_cons_self _ _)
    have hnk : k ∉ ks := fun hc => hk (List.mem_cons_of_mem _ hc)
    simp only [update_plist_arrays]
    exact ih _ k e e' hnk (updateArrayAtKey_preserves v k k0 e e' hne h)

theorem update_plist_arrays_settles (ks : List String) :
    ∀ (v : PValue) (e : String), ks.Nodup →
      ∀ k ∈ ks, keySettled (update_plist_arrays v ks e).1 k e := by
  induction ks with
  | nil => intro v e _ k hk; exact absurd hk (List.not_mem_nil _)
  | cons k0 ks ih =>
    intro v e hnd k hk
    have hnd' := List.nodup_cons.mp hnd
    simp only [update_plist_arrays]
    rcases List.mem_cons.mp hk with hk | hk
    · subst hk
      exact update_plist_arrays_preserves ks _ k e e hnd'.1
        (updateArrayAtKey_settles v k e)
    · exact ih _ e hnd'.2 k hk

end Patcher

namespace Report

theorem writeFile_same (f : Files) (n d : List ℕ) : writeFile f n d n = some d := by
  simp [writeFile]

theorem writeFile_other (f : Files) (n d m : List ℕ) (h : m ≠ n) :
    writeFile f n d m = f m := by
  simp [writeFile, h]

theorem write_artifacts_lookup (arts : List (List ℕ × List ℕ)) :
    ∀ (f g : Files) (m : List ℕ), write_artifacts f arts = .ok g →
      (∀ a ∈ arts, a.1 ≠ m) → g m = f m := by
  induction arts with
  | nil =>
    intro f g m h _
    injection h with h
    subst h
    rfl
  | cons a rest ih =>
    intro f g m h hn
    simp only [write_artifacts] at h
    by_cases hb : (a.1.contains 47 || a.1.contains 92) = true
    · rw [if_pos hb] at h; exact absurd h (by simp)
    · rw [if_neg hb] at h
      have := ih (writeFile f a.1 a.2) g m h (fun x hx => hn x (List.mem_cons_of_mem _ hx))
      rw [this, writeFile_other f a.1 a.2 m (Ne.symm (hn a (List.mem_cons_self _ _)))]

theorem write_artifacts_isSome (arts : List (List ℕ × List ℕ)) :
    ∀ (f g : Files) (m : List ℕ), write_artifacts f arts = .ok g →
      (f m).isSome = true → (g m).isSome = true := by
  induction arts with
  | nil =>
    intro f g m h hs
    injection h with h
    subst h
    exact hs
  | cons a rest ih =>
    intro f g m h hs
    simp only [write_artifacts] at h
    by_cases hb : (a.1.contains 47 || a.1.contains 92) = true
    · rw [if_pos hb] at h; exact absurd h (by simp)
    · rw [if_neg hb] at h
      refine ih (writeFile f a.1 a.2) g m h ?_
      by_cases hm : m = a.1
      · subst hm; rw [writeFile_same]; rfl
      · rw [writeFile_other f a.1 a.2 m hm]; exact hs

theorem write_artifacts_names_written (arts : List (List ℕ × List ℕ)) :
    ∀ (f g : Files), write_artifacts f arts = .ok g →
      ∀ a ∈ arts, (g a.1).isSome = true := by
  induction arts with
  | nil => intro f g _ a ha; exact absurd ha (List.not_mem_nil _)
  | cons a0 rest ih =>
    intro f g h a ha
    simp only [write_artifacts] at h
    by_cases hb : (a0.1.contains 47 || a0.1.contains 92) = true
    · rw [if_pos hb] at h; exact absurd h (by simp)
    · rw [if_neg hb] at h
      rcases List.mem_cons.mp ha with ha | ha
      · subst ha
        refine write_artifacts_isSome rest _ g a.1 h ?_
        rw [writeFile_same]; rfl
      · exact ih _ g h a ha

theorem check_entries_clean (sha : List ℕ → List ℕ) (files : Files) :
    ∀ entries : List ManifestEntry,
      (∀ e ∈ entries, ∃ data, files e.path = some data ∧
        e.sha256 = to_hex (sha data) ∧ e.bytes = data.length) →
      check_entries sha files entries = ([], entries.length) := by
  intro entries
  induction entries with
  | nil => intro _; rfl
  | cons e rest ih =>
    intro h
    rcases h e (List.mem_cons_self _ _) with ⟨data, hdata, hsha, hlen⟩
    simp only [check_entries]
    rw [hdata]
    dsimp only
    rw [if_neg (by rw [hsha]; exact fun hc => hc rfl),
      if_neg (by rw [hlen]; exact fun hc => hc rfl),
      ih (fun x hx => h x (List.mem_cons_of_mem _ hx))]
    simp

theorem dropWhile_eq_self_of_all {p : ℕ → Bool} {l : List ℕ}
    (h : ∀ b ∈ l, p b = false) : l.dropWhile p = l := by
  cases l with
  | nil => rfl
  | cons a t =>
    rw [List.dropWhile_cons, h a (List.mem_cons_self _ _)]
    simp

theorem trimAscii_eq_self {l : List ℕ} (h : ∀ b ∈ l, isWsByte b = false) :
    trimAscii l = l := by
  unfold trimAscii
  rw [dropWhile_eq_self_of_all h,
    dropWhile_eq_self_of_all (fun b hb => h b (List.mem_reverse.mp hb)),
    List.reverse_reverse]

theorem to_hex_no_ws (bytes : List ℕ) : ∀ b ∈ to_hex bytes, isWsByte b = false := by
  intro b hb
  rw [to_hex, List.mem_flatMap] at hb
  rcases hb with ⟨x, _, hx⟩
  simp only [List.mem_cons, List.mem_singleton, List.not_mem_nil, or_false] at hx
  have h48 : 48 ≤ b := by
    rcases hx with hx | hx <;> (subst hx; split <;> omega)
  simp only [isWsByte, Bool.or_eq_false_iff, beq_eq_false_iff_ne]
  omega

theorem eqIC_refl (a : List ℕ) : eq_ignore_ascii_case a a = true := by
  simp [eq_ignore_ascii_case]

theorem verify_ok_nosig (sha : List ℕ → List ℕ)
    (decodeM : List ℕ → Option Manifest) (files : Files)
    (key_hex : Option (List ℕ)) (mb : List ℕ) (M : Manifest)
    (h1 : files manifestJsonName = some mb) (h2 : decodeM mb = some M)
    (h3 : check_entries sha files M.entries = ([], M.entries.length))
    (h4 : files manifestSigName = none) :
    verify_report_bundle sha decodeM files key_hex
      = .ok ⟨true, M.entries.length, [], none⟩ := by
  unfold verify_report_bundle
  rw [h1]
  dsimp only
  rw [h2]
  dsimp only
  rw [h3, h4]
  rfl

theorem verify_ok_sig (sha : List ℕ → List ℕ)
    (decodeM : List ℕ → Option Manifest) (files : Files)
    (kh k mb : List ℕ) (M : Manifest)
    (h1 : files manifestJsonName = some mb) (h2 : decodeM mb = some M)
    (h3 : check_entries sha files M.entries = ([], M.entries.length))
    (h4 : files manifestSigName = some (to_hex (hmac_sha256 sha k mb)))
    (h5 : decode_hex kh = .ok k) :
    verify_report_bundle sha decodeM files (some kh)
      = .ok ⟨true, M.entries.length, [], some true⟩ := by
  unfold verify_report_bundle
  rw [h1]
  dsimp only
  rw [h2]
  dsimp only
  rw [h3, h4]
  dsimp only
  rw [h5]
  dsimp only
  rw [trimAscii_eq_self (to_hex_no_ws _), eqIC_refl]
  rfl

theorem write_canonical_dg (g r l : List ℕ) :
    write_canonical g r l deviceGraphName = some g := by
  unfold write_canonical
  rw [writeFile_other _ _ _ _ (by decide), writeFile_other _ _ _ _ (by decide),
    writeFile_same]

theorem write_canonical_run (g r l : List ℕ) :
    write_canonical g r l runJsonName = some r := by
  unfold write_canonical
  rw [writeFile_other _ _ _ _ (by decide), writeFile_same]

theorem write_canonical_logs (g r l : List ℕ) :
    write_canonical g r l logsName = some l := by
  unfold write_canonical
  rw [writeFile_same]

theorem write_canonical_other (g r l m : List ℕ) (h1 : m ≠ deviceGraphName)
    (h2 : m ≠ runJsonName) (h3 : m ≠ logsName) :
    write_canonical g r l m = none := by
  unfold write_canonical
  rw [writeFile_other _ _ _ _ h3, writeFile_other _ _ _ _ h2,
    writeFile_other _ _ _ _ h1]
  rfl

/-- The created manifest checks cleanly against any directory agreeing with
    the post-artifact state on every listed name. -/
theorem build_manifest_entries_clean (sha : List ℕ → List ℕ) (run_id : List ℕ)
    (files1 files : Files) (names : List (List ℕ))
    (hsome : ∀ n ∈ [deviceGraphName, runJsonName, logsName] ++ names,
      (files1 n).isSome = true)
    (heq : ∀ n ∈ [deviceGraphName, runJsonName, logsName] ++ names,
      files n = files1 n) :
    check_entries sha files (build_manifest sha run_id files1 names).entries
      = ([], (build_manifest sha run_id files1 names).entries.length) := by
  apply check_entries_clean
  intro e he
  simp only [build_manifest] at he
  rcases List.mem_map.mp he with ⟨n, hn, rfl⟩
  rcases Option.isSome_iff_exists.mp (hsome n hn) with ⟨data, hdata⟩
  refine ⟨data, ?_, ?_, ?_⟩
  · show files n = some data
    rw [heq n hn, hdata]
  · simp [entryFor, hdata]
  · simp [entryFor, hdata]

end Report

/-- C10: every `"macos_installer_usb"` step is validated by the first
    matching arm (which requires `source_path` and `target_mount`) and is
    dispatched to `run_unix_installer_usb`; the later duplicate arms for
    the same action string (requiring `target_device`, dispatching
    `run_macos_installer_usb`) are unreachable: deleting them changes
    neither validation nor dispatch on any input. -/
theorem macos_installer_duplicate_arm_unreachable :
    (∀ (currentOs id : String) (params : Engine.Json),
      Engine.validate_step currentOs ⟨id, "macos_installer_usb", params⟩ =
        (do
          let _ ← Engine.ensure_os currentOs "macos"
          let _ ← Engine.require_string params "source_path"
          let _ ← Engine.require_string params "target_mount"
          pure ())) ∧
    Engine.dispatch_runner "macos_installer_usb" = some .unixInstallerUsb ∧
    (∀ (currentOs : String) (step : Engine.WorkflowStep),
      Engine.validate_step currentOs step =
        Engine.validate_step_sans_duplicate currentOs step) ∧
    (∀ action : String,
      Engine.dispatch_runner action = Engine.dispatch_runner_sans_duplicate action) := by
  refine ⟨?_, rfl, ?_, ?_⟩
  · intro currentOs id params
    rfl
  · intro currentOs step
    rcases step with ⟨id, action, params⟩
    by_cases h : action = "macos_installer_usb"
    · subst h; rfl
    · simp only [Engine.validate_step, Engine.validate_step_sans_duplicate, if_neg h]
  · intro action
    by_cases h : action = "macos_installer_usb"
    · subst h; rfl
    · simp only [Engine.dispatch_runner, Engine.dispatch_runner_sans_duplicate, if_neg h]

/-- C6 counterexample: the Windows read-hash primitive does NOT fail on a
    short read.  On a device whose single `ReadFile` call delivers only 2
    of the 4 requested bytes, `hash_disk_readonly_physicaldrive_with_progress`
    succeeds and the chunk's hash input is those 2 bytes, not the chunk's
    4. -/
theorem windows_read_hash_accepts_short_read :
    Imaging.devRead Imaging.shortReadDevice 0 4 = 2 ∧ 2 < 4 ∧
    Imaging.hash_disk_readonly_physicaldrive_with_progress id Imaging.shortReadDevice
        (fun _ => true) "PhysicalDrive1" 4 4 none
      = .ok [(0, Imaging.to_hex [17, 17])] :=
  ⟨rfl, by omega, rfl⟩

/-- C6 (amended): the Unix read-hash primitive `hash_device_readonly`
    reads exactly `chunk.size` bytes per chunk — failing with an error on
    end-of-data — so on success every returned per-chunk hash is the hash
    of exactly the `chunk.size` device bytes at that chunk's offset.  (The
    Windows primitive hashes whatever a single read returns; see the
    counterexample.) -/
theorem unix_read_hash_exact (sha : List ℕ → List ℕ) (d : Imaging.Device)
    (device_path : String) (total_size chunk_size : ℕ) (max_chunks : Option ℕ)
    (rs : List (ℕ × List ℕ))
    (h : Imaging.hash_device_readonly sha d device_path total_size chunk_size max_chunks
      = .ok rs) :
    rs = (match max_chunks with
        | some m => (Imaging.make_chunk_plan total_size chunk_size).chunks.take m
        | none => (Imaging.make_chunk_plan total_size chunk_size).chunks).map
      fun (c : Imaging.Chunk) =>
        (c.index, Imaging.to_hex (sha (Imaging.devBytes d c.offset c.size))) := by
  by_cases hc : chunk_size = 0
  · simp [Imaging.hash_device_readonly, hc] at h
  · by_cases ho : d.openOk = false
    · simp [Imaging.hash_device_readonly, hc, ho] at h
    · simp only [Imaging.hash_device_readonly, if_neg hc, if_neg ho] at h
      exact Imaging.unixHashChunks_ok sha d chunk_size _ rs h

/-- Witness for C6: on a fully-delivering device with content byte `i` at
    offset `i`, hashing 4 bytes in 2-byte chunks returns the hashes of
    exactly the byte pairs at offsets 0 and 2. -/
theorem unix_read_hash_exact_witness :
    [((0 : ℕ), Imaging.to_hex [0, 1]), (1, Imaging.to_hex [2, 3])] =
      (match (none : Option ℕ) with
        | some m => (Imaging.make_chunk_plan 4 2).chunks.take m
        | none => (Imaging.make_chunk_plan 4 2).chunks).map
        (fun (c : Imaging.Chunk) =>
          (c.index, Imaging.to_hex (id (Imaging.devBytes Imaging.fullReadDevice c.offset c.size)))) :=
  unix_read_hash_exact id Imaging.fullReadDevice "dev" 4 2 none
    [(0, Imaging.to_hex [0, 1]), (1, Imaging.to_hex [2, 3])] (by rfl)

namespace Fat32

theorem writesTo_cons (t : ℕ) (d : List ℕ) (l : List (ℕ × List ℕ)) (s : ℕ) :
    writesTo ((t, d) :: l) s = if t = s then d :: writesTo l s else writesTo l s := by
  by_cases h : t = s
  · simp [writesTo, List.filter_cons, h]
  · simp [writesTo, List.filter_cons, h]

theorem writesTo_append (l1 l2 : List (ℕ × List ℕ)) (s : ℕ) :
    writesTo (l1 ++ l2) s = writesTo l1 s ++ writesTo l2 s := by
  simp [writesTo, List.filter_append]

theorem writesTo_eq_nil (l : List (ℕ × List ℕ)) (s : ℕ)
    (h : ∀ w ∈ l, w.1 ≠ s) : writesTo l s = [] := by
  unfold writesTo
  rw [List.filter_eq_nil_iff.mpr (fun a ha => by simpa using h a ha)]
  rfl

theorem writesTo_map_const (d : List ℕ) :
    ∀ L : List ℕ, L.Nodup → ∀ s,
      writesTo (L.map fun t => (t, d)) s = if s ∈ L then [d] else [] := by
  intro L
  induction L with
  | nil => intro _ s; simp [writesTo]
  | cons a L ih =>
    intro hnd s
    have hnd' := List.nodup_cons.mp hnd
    rw [List.map_cons, writesTo_cons]
    by_cases h : a = s
    · subst h
      rw [if_pos rfl, ih hnd'.2 a, if_neg hnd'.1,
        if_pos (List.mem_cons_self _ _)]
    · rw [if_neg h, ih hnd'.2 s]
      by_cases hm : s ∈ L
      · rw [if_pos hm, if_pos (List.mem_cons_of_mem _ hm)]
      · rw [if_neg hm, if_neg (fun hc => by
          rcases List.mem_cons.mp hc with hc | hc
          · exact h hc.symm
          · exact hm hc)]

/-- A successful `compute_fat_size` result is a genuine fixed point of the
    (u32-wrapping) size recurrence with a nonzero cluster count. -/
theorem compute_fat_size_aux_ok (total spc : ℕ) :
    ∀ fuel cur f, compute_fat_size_aux total spc fuel cur = .ok f →
      (total - (32 + 2 * f) % 4294967296) / spc ≠ 0 ∧
      (((total - (32 + 2 * f) % 4294967296) / spc + 2) * 4 + (512 - 1))
        % 4294967296 / 512 = f := by
  intro fuel
  induction fuel with
  | zero => intro cur f h; exact absurd h (by simp [compute_fat_size_aux])
  | succ n ih =>
    intro cur f h
    simp only [compute_fat_size_aux] at h
    by_cases hc : (total - (32 + 2 * cur) % 4294967296) / spc = 0
    · rw [if_pos hc] at h; exact absurd h (by simp)
    · rw [if_neg hc] at h
      by_cases hn : (((total - (32 + 2 * cur) % 4294967296) / spc + 2) * 4
          + (512 - 1)) % 4294967296 / 512 = cur
      · rw [if_pos hn] at h
        injection h with h
        subst h
        exact ⟨hc, hn⟩
      · rw [if_neg hn] at h
        exact ih _ f h

/-- A successful candidate scan selected a size whose geometry has at
    least 65525 and at most 0x0FFFFFF5 clusters. -/
theorem select_aux_ok (total : ℕ) :
    ∀ cands spc, select_aux total cands = .ok spc →
      ∃ f, compute_fat_size total spc = .ok f ∧
        65525 ≤ (total - (32 + 2 * f) % 4294967296) / spc ∧
        (total - (32 + 2 * f) % 4294967296) / spc ≤ 0x0FFFFFF5 := by
  intro cands
  induction cands with
  | nil => intro spc h; exact absurd h (by simp [select_aux])
  | cons c rest ih =>
    intro spc h
    simp only [select_aux] at h
    cases hcf : compute_fat_size total c with
    | error e => rw [hcf] at h; exact absurd h (by simp)
    | ok fat =>
      rw [hcf] at h
      dsimp only at h
      by_cases hcl : 65525 ≤ (total - (32 + 2 * fat) % 4294967296) / c ∧
          (total - (32 + 2 * fat) % 4294967296) / c ≤ 0x0FFFFFF5
      · rw [if_pos hcl] at h
        injection h with h
        subst h
        exact ⟨fat, hcf, hcl.1, hcl.2⟩
      · rw [if_neg hcl] at h
        exact ih spc h

/-- The selected sectors-per-cluster value comes from the candidate list. -/
theorem select_aux_mem (total : ℕ) :
    ∀ cands spc, select_aux total cands = .ok spc → spc ∈ cands := by
  intro cands
  induction cands with
  | nil => intro spc h; exact absurd h (by simp [select_aux])
  | cons c rest ih =>
    intro spc h
    simp only [select_aux] at h
    cases hcf : compute_fat_size total c with
    | error e => rw [hcf] at h; exact absurd h (by simp)
    | ok fat =>
      rw [hcf] at h
      dsimp only at h
      by_cases hcl : 65525 ≤ (total - (32 + 2 * fat) % 4294967296) / c ∧
          (total - (32 + 2 * fat) % 4294967296) / c ≤ 0x0FFFFFF5
      · rw [if_pos hcl] at h
        injection h with h
        subst h
        exact List.mem_cons_self _ _
      · rw [if_neg hcl] at h
        exact List.mem_cons_of_mem _ (ih spc h)

theorem map_sector_mod_eq (L : List ℕ) (h : ∀ s ∈ L, s < 4294967296) :
    (L.map fun s => (s % 4294967296, zeroSector)) =
      L.map fun s => (s, zeroSector) := by
  induction L with
  | nil => rfl
  | cons a t ih =>
    simp only [List.map_cons]
    rw [Nat.mod_eq_of_lt (h a (List.mem_cons_self a t)),
      ih fun s hs => h s (List.mem_cons_of_mem a hs)]

/-- Below the u32 boundary the wrapped FAT writes are the plain ones. -/
theorem write_fat_eq_of_bounded (start spf : ℕ)
    (hb : start + spf ≤ 4294967296) :
    write_fat start spf =
      (start, fat_first_sector) ::
        (List.range' (start + 1) (spf - 1)).map fun s => (s, zeroSector) := by
  unfold write_fat
  rw [map_sector_mod_eq]
  intro s hs
  rw [List.mem_range'_1] at hs
  omega

/-- Below the u32 boundary the wrapped root-cluster writes are plain. -/
theorem zero_cluster_eq_of_bounded (start spc : ℕ)
    (hb : start + spc ≤ 4294967296) :
    zero_cluster start spc =
      (List.range' start spc).map fun s => (s, zeroSector) := by
  unfold zero_cluster
  rw [map_sector_mod_eq]
  intro s hs
  rw [List.mem_range'_1] at hs
  omega

theorem write_fat_bounds (start spf : ℕ) (hspf : 1 ≤ spf)
    (hb : start + spf ≤ 4294967296) :
    ∀ w ∈ write_fat start spf, start ≤ w.1 ∧ w.1 < start + spf := by
  rw [write_fat_eq_of_bounded start spf hb]
  intro w hw
  rcases List.mem_cons.mp hw with hw | hw
  · subst hw
    exact ⟨le_rfl, by show start < start + spf; omega⟩
  · rcases List.mem_map.mp hw with ⟨t, ht, rfl⟩
    rw [List.mem_range'_1] at ht
    exact ⟨by show start ≤ t; omega, by show t < start + spf; omega⟩

theorem zero_cluster_bounds (start spc : ℕ)
    (hb : start + spc ≤ 4294967296) :
    ∀ w ∈ zero_cluster start spc, start ≤ w.1 := by
  rw [zero_cluster_eq_of_bounded start spc hb]
  intro w hw
  rcases List.mem_map.mp hw with ⟨t, ht, rfl⟩
  rw [List.mem_range'_1] at ht
  show start ≤ t
  omega

theorem writesTo_write_fat_start (start spf : ℕ)
    (hb : start + spf ≤ 4294967296) :
    writesTo (write_fat start spf) start = [fat_first_sector] := by
  rw [write_fat_eq_of_bounded start spf hb]
  rw [writesTo_cons, if_pos rfl, writesTo_eq_nil]
  intro w hw
  rcases List.mem_map.mp hw with ⟨t, ht, rfl⟩
  rw [List.mem_range'_1] at ht
  show t ≠ start
  omega

theorem writesTo_write_fat_zero (start spf s : ℕ)
    (hb : start + spf ≤ 4294967296) (hs : start < s)
    (hlt : s < start + spf) :
    writesTo (write_fat start spf) s = [zeroSector] := by
  rw [write_fat_eq_of_bounded start spf hb]
  rw [writesTo_cons, if_neg (by omega),
    writesTo_map_const zeroSector _ (List.nodup_range' _ _) s,
    if_pos (List.mem_range'_1.mpr (by omega))]

theorem writesTo_write_fat_nil (start spf s : ℕ) (hspf : 1 ≤ spf)
    (hb : start + spf ≤ 4294967296)
    (h : s < start ∨ start + spf ≤ s) :
    writesTo (write_fat start spf) s = [] := by
  apply writesTo_eq_nil
  intro w hw
  have := write_fat_bounds start spf hspf hb w hw
  omega

theorem writesTo_zero_cluster_nil (start spc s : ℕ)
    (hb : start + spc ≤ 4294967296) (h : s < start) :
    writesTo (zero_cluster start spc) s = [] := by
  apply writesTo_eq_nil
  intro w hw
  have := zero_cluster_bounds start spc hb w hw
  omega

theorem writesTo_label_nil (P : Prop) [Decidable P] (r s : ℕ) (e : List ℕ)
    (h : s < r) :
    writesTo (if P then [] else [(r, e)]) s = [] := by
  by_cases hp : P
  · rw [if_pos hp]; rfl
  · rw [if_neg hp]
    apply writesTo_eq_nil
    intro w hw
    rcases List.mem_cons.mp hw with hw | hw
    · subst hw; show r ≠ s; omega
    · exact absurd hw (List.not_mem_nil _)

end Fat32

namespace Engine

/-- Under `dry_run` the candidate loop performs no plist write. -/
theorem legacyLoop_dry_writes (p : LegacyPatchParams) (env : LegacyEnv)
    (model : String) (hdry : p.dry_run = true) :
    ∀ cands ps w, legacyLoop p env model cands = .ok (ps, w) → w = 0 := by
  intro cands
  induction cands with
  | nil =>
    intro ps w h
    injection h with h
    injection h with h1 h2
    omega
  | cons c rest ih =>
    intro ps w h
    obtain ⟨path, cand⟩ := c
    simp only [legacyLoop] at h
    match cand with
    | none => exact ih ps w h
    | some (.error e) => exact absurd h (by simp)
    | some (.ok v) =>
      dsimp only at h
      by_cases hch : (Patcher.patchPlistValue v model p.board_id).2 = true
      · rw [if_pos hch, hdry] at h
        rw [if_neg (by decide : ¬(true = false))] at h
        cases hr : legacyLoop p env model rest with
        | error e => rw [hr] at h; exact absurd h (by simp)
        | ok r =>
          obtain ⟨ps', w'⟩ := r
          rw [hr] at h
          dsimp only at h
          injection h with h
          injection h with h1 h2
          rw [← h2]
          exact ih ps' w' hr
      · rw [if_neg hch] at h
        exact ih ps w h

end Engine

/-- C5 counterexample: 1000 sectors pass the formatter's size guards but
    cannot yield 65525 clusters, so `format_fat32` errors instead of
    producing the claimed layout — the claim's bound `total_bytes ≥
    1000·512` is far too small. -/
theorem fat32_small_device_rejected :
    512 * 1000 ≤ 512000 ∧ 512000 % 512 = 0 ∧
    Fat32.format_fat32 512000 0 none
      = .error "unable to select sectors per cluster for FAT32" :=
  ⟨by omega, rfl, rfl⟩

set_option maxRecDepth 8000 in
/-- C5 (amended): whenever `format_fat32` succeeds (the size guards pass
    and the sectors-per-cluster scan finds a geometry with at least 65525
    clusters — which a bare 1000·512 bytes never is), the boot sector is
    written exactly once to LBA 0 and once, identically, to LBA 6; FSINFO
    identically to LBA 1 and LBA 7; both FATs get the three reserved
    32-bit entries 0x0FFFFF8/0x0FFFFFFF/0x0FFFFFFF at their first sector
    with every other FAT sector zeroed; and the selected geometry yields
    at least 65525 clusters. -/
theorem fat32_format_spec (total_bytes volume_id : ℕ) (label : Option String)
    (layout : Fat32.Fat32Layout) (writes : List (ℕ × List ℕ))
    (h : Fat32.format_fat32 total_bytes volume_id label = .ok (layout, writes)) :
    (∃ boot, Fat32.writesTo writes 0 = [boot] ∧ Fat32.writesTo writes 6 = [boot]) ∧
    (∃ fsinfo, Fat32.writesTo writes 1 = [fsinfo] ∧ Fat32.writesTo writes 7 = [fsinfo]) ∧
    Fat32.writesTo writes 32 = [Fat32.fat_first_sector] ∧
    Fat32.writesTo writes (32 + layout.sectors_per_fat) = [Fat32.fat_first_sector] ∧
    (∀ s, (32 < s ∧ s < 32 + layout.sectors_per_fat) ∨
        (32 + layout.sectors_per_fat < s ∧
          s < 32 + 2 * layout.sectors_per_fat) →
      Fat32.writesTo writes s = [Fat32.zeroSector]) ∧
    Fat32.fat_first_sector =
      [0xF8, 0xFF, 0xFF, 0x0F, 0xFF, 0xFF, 0xFF, 0x0F, 0xFF, 0xFF, 0xFF, 0x0F]
        ++ List.replicate 500 0 ∧
    65525 ≤ (layout.total_sectors - (32 + 2 * layout.sectors_per_fat))
      / layout.sectors_per_cluster := by
  unfold Fat32.format_fat32 at h
  by_cases h1 : total_bytes < 512 * 1000
  · rw [if_pos h1] at h; exact absurd h (by simp)
  rw [if_neg h1] at h
  by_cases h2 : total_bytes % 512 ≠ 0
  · rw [if_pos h2] at h; exact absurd h (by simp)
  rw [if_neg h2] at h
  dsimp only at h
  cases hsel : Fat32.select_sectors_per_cluster (total_bytes / 512 % 4294967296) with
  | error e => rw [hsel] at h; exact absurd h (by simp)
  | ok spc =>
    rw [hsel] at h
    dsimp only at h
    cases hcf : Fat32.compute_fat_size (total_bytes / 512 % 4294967296) spc with
    | error e => rw [hcf] at h; exact absurd h (by simp)
    | ok spf =>
      rw [hcf] at h
      dsimp only at h
      injection h with h
      injection h with hL hW
      subst hL
      subst hW
      dsimp only
      rcases Fat32.select_aux_ok (total_bytes / 512 % 4294967296) _ spc hsel with
        ⟨f, hf, hcl, hcu⟩
      rw [hcf] at hf
      injection hf with hf
      subst hf
      obtain ⟨-, hfix⟩ :=
        Fat32.compute_fat_size_aux_ok (total_bytes / 512 % 4294967296) spc _ _ spf hcf
      have hmem := Fat32.select_aux_mem (total_bytes / 512 % 4294967296) _ spc hsel
      simp only [List.mem_cons, List.not_mem_nil, or_false] at hmem
      have hspc_ub : spc ≤ 128 := by omega
      revert hfix hcl hcu
      generalize hgen :
        (total_bytes / 512 % 4294967296 - (32 + 2 * spf) % 4294967296) / spc = c
      intro hcl hcu hfix
      have hnw : (c + 2) * 4 + (512 - 1) < 4294967296 := by omega
      rw [Nat.mod_eq_of_lt hnw] at hfix
      have hspf_lb : 1 ≤ spf := by
        rw [← hfix]
        exact le_trans (by norm_num)
          (Nat.div_le_div_right (by omega : 523 ≤ (c + 2) * 4 + (512 - 1)))
      have hspf_ub : spf ≤ 2097152 := by
        rw [← hfix]
        exact le_trans
          (Nat.div_le_div_right
            (by omega : (c + 2) * 4 + (512 - 1) ≤ 1073742299))
          (by norm_num)
      have hm1 : (32 + 2 * spf) % 4294967296 = 32 + 2 * spf := by omega
      have hm2 : (32 + spf) % 4294967296 = 32 + spf := by omega
      have h22 : (2 - 2) * spc = 0 := by norm_num
      have hroot : ((32 + 2 * spf) % 4294967296 + (2 - 2) * spc) % 4294967296
          = 32 + 2 * spf := by
        rw [hm1, h22]
        omega
      rw [hroot, hm2]
      have hhead_nil : ∀ s, 8 ≤ s →
          Fat32.writesTo
            [(0, Fat32.build_boot_sector (total_bytes / 512 % 4294967296) spc spf
                volume_id (Fat32.label_bytes (label.getD "PHOENIX"))),
             (6, Fat32.build_boot_sector (total_bytes / 512 % 4294967296) spc spf
                volume_id (Fat32.label_bytes (label.getD "PHOENIX"))),
             (1, Fat32.build_fsinfo), (7, Fat32.build_fsinfo)] s = [] := by
        intro s hs
        apply Fat32.writesTo_eq_nil
        intro w hw
        simp only [List.mem_cons, List.not_mem_nil, or_false] at hw
        rcases hw with rfl | rfl | rfl | rfl
        · show (0 : ℕ) ≠ s; omega
        · show (6 : ℕ) ≠ s; omega
        · show (1 : ℕ) ≠ s; omega
        · show (7 : ℕ) ≠ s; omega
      refine ⟨⟨Fat32.build_boot_sector (total_bytes / 512 % 4294967296) spc spf
          volume_id (Fat32.label_bytes (label.getD "PHOENIX")), ?_, ?_⟩,
        ⟨Fat32.build_fsinfo, ?_, ?_⟩, ?_, ?_, ?_, by decide, ?_⟩
      · simp only [Fat32.writesTo_append]
        rw [Fat32.writesTo_write_fat_nil 32 spf 0 hspf_lb (by omega)
            (Or.inl (by omega)),
          Fat32.writesTo_write_fat_nil (32 + spf) spf 0 hspf_lb (by omega)
            (Or.inl (by omega)),
          Fat32.writesTo_zero_cluster_nil _ _ 0 (by omega) (by omega),
          Fat32.writesTo_label_nil _ _ 0 _ (by omega)]
        simp only [List.append_nil]
        rfl
      · simp only [Fat32.writesTo_append]
        rw [Fat32.writesTo_write_fat_nil 32 spf 6 hspf_lb (by omega)
            (Or.inl (by omega)),
          Fat32.writesTo_write_fat_nil (32 + spf) spf 6 hspf_lb (by omega)
            (Or.inl (by omega)),
          Fat32.writesTo_zero_cluster_nil _ _ 6 (by omega) (by omega),
          Fat32.writesTo_label_nil _ _ 6 _ (by omega)]
        simp only [List.append_nil]
        rfl
      · simp only [Fat32.writesTo_append]
        rw [Fat32.writesTo_write_fat_nil 32 spf 1 hspf_lb (by omega)
            (Or.inl (by omega)),
          Fat32.writesTo_write_fat_nil (32 + spf) spf 1 hspf_lb (by omega)
            (Or.inl (by omega)),
          Fat32.writesTo_zero_cluster_nil _ _ 1 (by omega) (by omega),
          Fat32.writesTo_label_nil _ _ 1 _ (by omega)]
        simp only [List.append_nil]
        rfl
      · simp only [Fat32.writesTo_append]
        rw [Fat32.writesTo_write_fat_nil 32 spf 7 hspf_lb (by omega)
            (Or.inl (by omega)),
          Fat32.writesTo_write_fat_nil (32 + spf) spf 7 hspf_lb (by omega)
            (Or.inl (by omega)),
          Fat32.writesTo_zero_cluster_nil _ _ 7 (by omega) (by omega),
          Fat32.writesTo_label_nil _ _ 7 _ (by omega)]
        simp only [List.append_nil]
        rfl
      · simp only [Fat32.writesTo_append]
        rw [hhead_nil 32 (by omega),
          Fat32.writesTo_write_fat_start 32 spf (by omega),
          Fat32.writesTo_write_fat_nil (32 + spf) spf 32 hspf_lb (by omega)
            (Or.inl (by omega)),
          Fat32.writesTo_zero_cluster_nil _ _ 32 (by omega) (by omega),
          Fat32.writesTo_label_nil _ _ 32 _ (by omega)]
        simp
      · simp only [Fat32.writesTo_append]
        rw [hhead_nil (32 + spf) (by omega),
          Fat32.writesTo_write_fat_nil 32 spf (32 + spf) hspf_lb (by omega)
            (Or.inr (by omega)),
          Fat32.writesTo_write_fat_start (32 + spf) spf (by omega),
          Fat32.writesTo_zero_cluster_nil _ _ (32 + spf) (by omega) (by omega),
          Fat32.writesTo_label_nil _ _ (32 + spf) _ (by omega)]
        simp
      · intro s hs
        simp only [Fat32.writesTo_append]
        rcases hs with ⟨hs1, hs2⟩ | ⟨hs1, hs2⟩
        · rw [hhead_nil s (by omega),
            Fat32.writesTo_write_fat_zero 32 spf s (by omega) hs1 hs2,
            Fat32.writesTo_write_fat_nil (32 + spf) spf s hspf_lb (by omega)
              (Or.inl (by omega)),
            Fat32.writesTo_zero_cluster_nil _ _ s (by omega) (by omega),
            Fat32.writesTo_label_nil _ _ s _ (by omega)]
          simp
        · rw [hhead_nil s (by omega),
            Fat32.writesTo_write_fat_nil 32 spf s hspf_lb (by omega)
              (Or.inr (by omega)),
            Fat32.writesTo_write_fat_zero (32 + spf) spf s (by omega) hs1
              (by omega),
            Fat32.writesTo_zero_cluster_nil _ _ s (by omega) (by omega),
            Fat32.writesTo_label_nil _ _ s _ (by omega)]
          simp
      · rw [hm1] at hgen
        rw [hgen]
        exact hcl

set_option maxRecDepth 8000 in
/-- Witness for C5: a 35 840 000-byte (70 000-sector) device formats
    successfully; the boot sector lands identically on LBA 0 and 6 and the
    geometry has at least 65525 clusters. -/
theorem fat32_format_spec_witness :
    ∃ layout writes,
      Fat32.format_fat32 35840000 0 none = .ok (layout, writes) ∧
      (∃ boot, Fat32.writesTo writes 0 = [boot] ∧ Fat32.writesTo writes 6 = [boot]) ∧
      65525 ≤ (layout.total_sectors - (32 + 2 * layout.sectors_per_fat))
        / layout.sectors_per_cluster := by
  have hok : (Fat32.format_fat32 35840000 0 none).isOk = true := rfl
  cases hf : Fat32.format_fat32 35840000 0 none with
  | error e =>
    rw [hf] at hok
    exact absurd hok (by simp [Except.isOk, Except.toBool])
  | ok p =>
    obtain ⟨l, w⟩ := p
    exact ⟨l, w, rfl, (fat32_format_spec 35840000 0 none l w hf).1,
      (fat32_format_spec 35840000 0 none l w hf).2.2.2.2.2.2⟩

/-- C2 counterexample: a `macos_legacy_patch` step with `dry_run = true`
    and a failing safety context consults the gate — contrary to the
    claim — and the whole dry run fails with the gate's denial, writing no
    report at all. -/
theorem legacy_patch_dry_run_consults_gate :
    Engine.run_legacy_patch Engine.cexLegacyParams Engine.cexLegacyEnv
      = ([(⟨false, none⟩, false)],
          .error "Denied: destructive ops require force-mode") := rfl

/-- C2 (amended): a `windows_installer_usb` step with `dry_run = true`
    never consults the safety gate and, when it succeeds, reports
    `status = "dry_run"` with zero copied files and bytes; the
    `macos_legacy_patch` step, by contrast, consults the gate exactly once
    on every run that got past the host provider — `dry_run`
    notwithstanding — though a successful dry run still reports
    `status = "dry_run"` and performs no plist write. -/
theorem dry_run_semantics :
    (∀ (p : Engine.WindowsInstallerUsbParams) (env : Engine.WinEnv),
      p.dry_run = true →
        (Engine.run_windows_installer_usb p env).1 = [] ∧
        ∀ out, (Engine.run_windows_installer_usb p env).2 = .ok out →
          out.status = "dry_run" ∧ out.copied_files = 0 ∧ out.copied_bytes = 0 ∧
          out.driver_files = 0 ∧ out.driver_bytes = 0) ∧
    (∀ (p : Engine.LegacyPatchParams) (env : Engine.LegacyEnv),
      env.graph = .ok () →
        (Engine.run_legacy_patch p env).1
          = [(⟨p.force, p.confirmation_token⟩, false)]) ∧
    (∀ (p : Engine.LegacyPatchParams) (env : Engine.LegacyEnv) out,
      p.dry_run = true →
        (Engine.run_legacy_patch p env).2 = .ok out →
          out.status = "dry_run" ∧ out.writes = 0) := by
  refine ⟨?_, ?_, ?_⟩
  · intro p env hdry
    have herr : ∀ e : String,
        (([], (.error e : Except String Engine.WinOutcome)) :
          List (Safety.SafetyContext × Bool) × Except String Engine.WinOutcome).1 = [] ∧
        ∀ out, (([], (.error e : Except String Engine.WinOutcome)) :
            List (Safety.SafetyContext × Bool) × Except String Engine.WinOutcome).2
            = .ok out →
          out.status = "dry_run" ∧ out.copied_files = 0 ∧ out.copied_bytes = 0 ∧
          out.driver_files = 0 ∧ out.driver_bytes = 0 :=
      fun e => ⟨rfl, fun out hout => absurd hout (by simp)⟩
    unfold Engine.run_windows_installer_usb
    cases hg : env.graph with
    | error e => exact herr e
    | ok graph =>
      dsimp only
      cases hf : graph.disks.find? (fun d => Engine.eqIgnoreCaseStr d.id p.target_disk_id) with
      | none => exact herr _
      | some disk =>
        dsimp only
        by_cases hs : disk.is_system_disk = true
        · rw [if_pos hs]; exact herr _
        · rw [if_neg hs]
          by_cases hr : disk.removable = false
          · rw [if_pos hr]; exact herr _
          · rw [if_neg hr]
            cases hm : Engine.resolve_target_mount p.target_mount disk with
            | error e => exact herr e
            | ok tm =>
              dsimp only
              by_cases hfs : Engine.unsupported_fs disk tm = true
              · rw [if_pos hfs]; exact herr _
              · rw [if_neg hfs]
                cases hp : env.prepare with
                | error e => exact herr e
                | ok u =>
                  dsimp only
                  by_cases hd : env.source_is_dir = false
                  · rw [if_pos hd]; exact herr _
                  · rw [if_neg hd]
                    by_cases hx : env.setup_exe_exists = false
                    · rw [if_pos hx]; exact herr _
                    · rw [if_neg hx]
                      cases hfl : env.files with
                      | error e => exact herr e
                      | ok files =>
                        dsimp only
                        cases hb : Engine.ensure_boot_files files with
                        | error e => exact herr e
                        | ok u2 =>
                          dsimp only
                          by_cases hft : (Engine.eqIgnoreCaseStr
                              p.filesystem.as_str "FAT32" &&
                              decide (Engine.FAT32_MAX_FILE
                                < Engine.max_file_size files)) = true
                          · rw [if_pos hft]; exact herr _
                          · rw [if_neg hft, hdry,
                              if_neg (by decide : ¬(true = false))]
                            cases hrep : env.report with
                            | error e => exact herr e
                            | ok u3 =>
                              refine ⟨rfl, fun out hout => ?_⟩
                              have h2 : Except.ok
                                  (⟨"dry_run", tm, 0, 0, 0, 0⟩ : Engine.WinOutcome)
                                  = .ok out := hout
                              injection h2 with h2
                              rw [← h2]
                              exact ⟨rfl, rfl, rfl, rfl, rfl⟩
  · intro p env hg
    unfold Engine.run_legacy_patch
    rw [hg]
    dsimp only
    split <;> rfl
  · intro p env out hdry hout
    unfold Engine.run_legacy_patch at hout
    revert hout
    match henv : env.graph with
    | .error e => intro hout; exact absurd hout (by simp)
    | .ok _ =>
      dsimp only
      split
      · intro hout; exact absurd hout (by simp)
      · dsimp only
        match hprep : env.prepare with
        | .error e => intro hout; exact absurd hout (by simp)
        | .ok _ =>
          dsimp only
          by_cases happ : env.app_found = false
          · rw [if_pos happ]; intro hout; exact absurd hout (by simp)
          · rw [if_neg happ]
            match hloop : Engine.legacyLoop p env (p.model.getD "UnknownModel")
                env.candidates with
            | .error e => intro hout; exact absurd hout (by simp)
            | .ok r =>
              obtain ⟨ps, w⟩ := r
              dsimp only
              match hrep : env.report with
              | .error e => intro hout; exact absurd hout (by simp)
              | .ok _ =>
                dsimp only
                intro hout
                injection hout with hout
                rw [← hout, hdry]
                exact ⟨rfl,
                  Engine.legacyLoop_dry_writes p env _ hdry env.candidates ps w hloop⟩

/-- Witness for C2 at concrete inputs: a complete dry run of the Windows
    installer step consults no gate and reports `dry_run`; a legacy-patch
    dry run records exactly one gate call and, when allowed, reports
    `dry_run` with zero writes. -/
theorem dry_run_semantics_witness :
    (Engine.run_windows_installer_usb Engine.witWinParams Engine.witWinEnv).1 = [] ∧
    ((⟨"dry_run", "E:\\", 0, 0, 0, 0⟩ : Engine.WinOutcome).status = "dry_run" ∧
      (⟨"dry_run", "E:\\", 0, 0, 0, 0⟩ : Engine.WinOutcome).copied_files = 0 ∧
      (⟨"dry_run", "E:\\", 0, 0, 0, 0⟩ : Engine.WinOutcome).copied_bytes = 0 ∧
      (⟨"dry_run", "E:\\", 0, 0, 0, 0⟩ : Engine.WinOutcome).driver_files = 0 ∧
      (⟨"dry_run", "E:\\", 0, 0, 0, 0⟩ : Engine.WinOutcome).driver_bytes = 0) ∧
    (Engine.run_legacy_patch Engine.witLegacyParams Engine.witLegacyEnv).1
      = [(⟨true, some "PHX-1"⟩, false)] ∧
    ((⟨"dry_run", ["a.plist"], 0, true⟩ : Engine.LegacyOutcome).status = "dry_run" ∧
      (⟨"dry_run", ["a.plist"], 0, true⟩ : Engine.LegacyOutcome).writes = 0) :=
  ⟨(dry_run_semantics.1 Engine.witWinParams Engine.witWinEnv rfl).1,
   (dry_run_semantics.1 Engine.witWinParams Engine.witWinEnv rfl).2
     ⟨"dry_run", "E:\\", 0, 0, 0, 0⟩ rfl,
   dry_run_semantics.2.1 Engine.witLegacyParams Engine.witLegacyEnv rfl,
   dry_run_semantics.2.2 Engine.witLegacyParams Engine.witLegacyEnv
     ⟨"dry_run", ["a.plist"], 0, true⟩ rfl rfl⟩

/-- C7: when the preflight reaches a removable, non-system target disk and
    a resolvable source whose file tree lacks `sources/boot.wim`, the
    `windows_installer_usb` step fails with exactly
    "missing sources/boot.wim in installer source" and the safety gate is
    never consulted — the preflight error fires strictly before the gate. -/
theorem windows_usb_missing_bootwim_preflight
    (p : Engine.WindowsInstallerUsbParams) (env : Engine.WinEnv)
    (graph : Engine.DeviceGraph) (disk : Engine.Disk)
    (target_mount : String) (files : List Engine.FileEntry)
    (hgraph : env.graph = .ok graph)
    (hfind : graph.disks.find?
      (fun d => Engine.eqIgnoreCaseStr d.id p.target_disk_id) = some disk)
    (hsys : disk.is_system_disk = false)
    (hrem : disk.removable = true)
    (hmount : Engine.resolve_target_mount p.target_mount disk = .ok target_mount)
    (hfs : Engine.unsupported_fs disk target_mount = false)
    (hprep : env.prepare = .ok ())
    (hdir : env.source_is_dir = true)
    (hsetup : env.setup_exe_exists = true)
    (hfiles : env.files = .ok files)
    (hwim : ∀ e ∈ files, Engine.normalizeRel e.relative_path ≠ "sources/boot.wim") :
    Engine.run_windows_installer_usb p env
      = ([], .error "missing sources/boot.wim in installer source") := by
  have hboot : Engine.ensure_boot_files files
      = .error "missing sources/boot.wim in installer source" := by
    unfold Engine.ensure_boot_files
    have hany : (files.any fun e =>
        Engine.normalizeRel e.relative_path == "sources/boot.wim") = false := by
      rw [List.any_eq_false]
      intro e he
      simp only [beq_iff_eq]
      exact hwim e he
    rw [hany]
    rfl
  unfold Engine.run_windows_installer_usb
  rw [hgraph]
  dsimp only
  rw [hfind]
  dsimp only
  rw [if_neg (show ¬(disk.is_system_disk = true) by simp [hsys]),
    if_neg (show ¬(disk.removable = false) by simp [hrem]), hmount]
  dsimp only
  rw [if_neg (show ¬(Engine.unsupported_fs disk target_mount = true) by simp [hfs]),
    hprep]
  dsimp only
  rw [if_neg (show ¬(env.source_is_dir = false) by simp [hdir]),
    if_neg (show ¬(env.setup_exe_exists = false) by simp [hsetup]), hfiles]
  dsimp only
  rw [hboot]

/-- Witness for C7: the spec's scenario — `PhysicalDrive1`, removable,
    non-system, mounted at `E:\`, with a source missing
    `sources/boot.wim`. -/
theorem windows_usb_missing_bootwim_preflight_witness :
    Engine.run_windows_installer_usb Engine.witWinParams Engine.c7Env
      = ([], .error "missing sources/boot.wim in installer source") :=
  windows_usb_missing_bootwim_preflight Engine.witWinParams Engine.c7Env
    Engine.witGraph
    ⟨"PhysicalDrive1", "USB", 1000, true, false,
      [⟨"p1", none, some "NTFS", 1000, ["E:\\"]⟩]⟩
    "E:\\" [⟨"D:\\src\\setup.exe", "setup.exe", 1⟩]
    rfl rfl rfl rfl rfl rfl rfl rfl rfl rfl (by decide)

/-- C4 counterexample: an artifact may legally be named `manifest.json`
    (the name check rejects only path separators); the later manifest write
    overwrites it, so the freshly created, unmutated bundle fails its own
    verification with a hash mismatch on that entry. -/
theorem report_verify_fails_on_manifest_named_artifact :
    Report.create_report_bundle_with_meta_signing_and_artifacts id Report.toyEncode
        [] [1] [2] [3] Report.cexArtifacts none = .ok Report.cexFiles ∧
    Report.verify_report_bundle id Report.cexDecode Report.cexFiles none
      = .ok ⟨false, 4, [Report.strBytes "hash mismatch " ++ Report.manifestJsonName],
          none⟩ :=
  ⟨rfl, rfl⟩

/-- C4 (amended): for every bundle produced by the create operation whose
    artifact names avoid the two files written after the manifest is built
    (`manifest.json` and `manifest.sig`), and not mutated afterwards,
    verification with the same key succeeds with no mismatches, and
    `signature_valid` is `some true` exactly when a signing key was
    supplied (`none` when no `manifest.sig` exists).  The external SHA-256
    and the manifest serializer appear as parameters; the decoder is only
    required to invert the encoder on the manifest this bundle contains. -/
theorem report_bundle_roundtrip
    (sha : List ℕ → List ℕ) (encodeM : Report.Manifest → List ℕ)
    (decodeM : List ℕ → Option Report.Manifest)
    (run_id graphBytes runJsonBytes logsBytes : List ℕ)
    (artifacts : List (List ℕ × List ℕ)) (key_hex : Option (List ℕ))
    (files1 : Report.Files)
    (hart : Report.write_artifacts
      (Report.write_canonical graphBytes runJsonBytes logsBytes) artifacts = .ok files1)
    (hnames : ∀ a ∈ artifacts,
      a.1 ≠ Report.manifestJsonName ∧ a.1 ≠ Report.manifestSigName)
    (hdec : decodeM (encodeM
        (Report.build_manifest sha run_id files1 (artifacts.map Prod.fst)))
      = some (Report.build_manifest sha run_id files1 (artifacts.map Prod.fst)))
    (hkey : ∀ kh, key_hex = some kh → ∃ k, Report.decode_hex kh = .ok k) :
    ∃ files v,
      Report.create_report_bundle_with_meta_signing_and_artifacts sha encodeM run_id
        graphBytes runJsonBytes logsBytes artifacts key_hex = .ok files ∧
      Report.verify_report_bundle sha decodeM files key_hex = .ok v ∧
      v.ok = true ∧ v.mismatches = [] ∧
      v.signature_valid = key_hex.map fun _ => true := by
  have hsome : ∀ n ∈ [Report.deviceGraphName, Report.runJsonName, Report.logsName]
      ++ artifacts.map Prod.fst, (files1 n).isSome = true := by
    intro n hn
    rcases List.mem_append.mp hn with hn | hn
    · rcases List.mem_cons.mp hn with hn | hn
      · subst hn
        exact Report.write_artifacts_isSome _ _ _ _ hart
          (by rw [Report.write_canonical_dg]; rfl)
      rcases List.mem_cons.mp hn with hn | hn
      · subst hn
        exact Report.write_artifacts_isSome _ _ _ _ hart
          (by rw [Report.write_canonical_run]; rfl)
      rcases List.mem_cons.mp hn with hn | hn
      · subst hn
        exact Report.write_artifacts_isSome _ _ _ _ hart
          (by rw [Report.write_canonical_logs]; rfl)
      · exact absurd hn (List.not_mem_nil _)
    · rcases List.mem_map.mp hn with ⟨a, ha, rfl⟩
      exact Report.write_artifacts_names_written _ _ _ hart a ha
  have hnmm : ∀ n ∈ [Report.deviceGraphName, Report.runJsonName, Report.logsName]
      ++ artifacts.map Prod.fst,
      n ≠ Report.manifestJsonName ∧ n ≠ Report.manifestSigName := by
    intro n hn
    rcases List.mem_append.mp hn with hn | hn
    · rcases List.mem_cons.mp hn with hn | hn
      · subst hn; exact ⟨by decide, by decide⟩
      rcases List.mem_cons.mp hn with hn | hn
      · subst hn; exact ⟨by decide, by decide⟩
      rcases List.mem_cons.mp hn with hn | hn
      · subst hn; exact ⟨by decide, by decide⟩
      · exact absurd hn (List.not_mem_nil _)
    · rcases List.mem_map.mp hn with ⟨a, ha, rfl⟩
      exact hnames a ha
  have hms1 : files1 Report.manifestSigName = none := by
    rw [Report.write_artifacts_lookup artifacts _ _ _ hart
      (fun a ha => (hnames a ha).2)]
    exact Report.write_canonical_other _ _ _ _ (by decide) (by decide) (by decide)
  cases key_hex with
  | none =>
    refine ⟨Report.writeFile files1 Report.manifestJsonName
        (encodeM (Report.build_manifest sha run_id files1 (artifacts.map Prod.fst))),
      ⟨true, (Report.build_manifest sha run_id files1
        (artifacts.map Prod.fst)).entries.length, [], none⟩, ?_, ?_, rfl, rfl, rfl⟩
    · simp only [Report.create_report_bundle_with_meta_signing_and_artifacts, hart]
    · refine Report.verify_ok_nosig sha decodeM _ none _ _
        (Report.writeFile_same _ _ _) hdec ?_ ?_
      · apply Report.build_manifest_entries_clean sha run_id files1 _ _ hsome
        intro n hn
        exact Report.writeFile_other _ _ _ _ (hnmm n hn).1
      · rw [Report.writeFile_other _ _ _ _ (by decide)]
        exact hms1
  | some kh =>
    rcases hkey kh rfl with ⟨k, hk⟩
    refine ⟨Report.writeFile
        (Report.writeFile files1 Report.manifestJsonName
          (encodeM (Report.build_manifest sha run_id files1 (artifacts.map Prod.fst))))
        Report.manifestSigName
        (Report.to_hex (Report.hmac_sha256 sha k
          (encodeM (Report.build_manifest sha run_id files1 (artifacts.map Prod.fst))))),
      ⟨true, (Report.build_manifest sha run_id files1
        (artifacts.map Prod.fst)).entries.length, [], some true⟩, ?_, ?_, rfl, rfl, rfl⟩
    · simp only [Report.create_report_bundle_with_meta_signing_and_artifacts, hart, hk]
    · refine Report.verify_ok_sig sha decodeM _ kh k _ _ ?_ hdec ?_
        (Report.writeFile_same _ _ _) hk
      · rw [Report.writeFile_other _ _ _ _ (by decide)]
        exact Report.writeFile_same _ _ _
      · apply Report.build_manifest_entries_clean sha run_id files1 _ _ hsome
        intro n hn
        rw [Report.writeFile_other _ _ _ _ (hnmm n hn).2]
        exact Report.writeFile_other _ _ _ _ (hnmm n hn).1

/-- Witness for C4: a bundle with no artifacts, signed with key hex "00",
    verifies with the same key: ok, no mismatches, signature valid. -/
theorem report_bundle_roundtrip_witness :
    ∃ files v,
      Report.create_report_bundle_with_meta_signing_and_artifacts id Report.toyEncode
        (Report.strBytes "r") [1] [2] [3] [] (some (Report.strBytes "00"))
        = .ok files ∧
      Report.verify_report_bundle id Report.witDecode files
        (some (Report.strBytes "00")) = .ok v ∧
      v.ok = true ∧ v.mismatches = [] ∧
      v.signature_valid = (some (Report.strBytes "00")).map fun _ => true :=
  report_bundle_roundtrip id Report.toyEncode Report.witDecode
    (Report.strBytes "r") [1] [2] [3] [] (some (Report.strBytes "00"))
    Report.witFiles1 rfl (by simp) rfl
    (fun kh hkh => ⟨[0], by injection hkh with hkh; rw [← hkh]; rfl⟩)

/-- C8: the legacy-patcher plist mutation is idempotent — for every plist
    value, model, and optional board-id, applying the patch a second time
    finds the entry already present in each targeted array, changes
    nothing, and reports `changed = false` (so `run_legacy_patch` performs
    no rewrite on the second run). -/
theorem legacy_patch_idempotent (v : Patcher.PValue) (model : String)
    (board_id : Option String) :
    Patcher.patchPlistValue (Patcher.patchPlistValue v model board_id).1 model board_id
      = ((Patcher.patchPlistValue v model board_id).1, false) := by
  cases board_id with
  | none =>
    simp only [Patcher.patchPlistValue, Patcher.patch_supported_models]
    exact Patcher.update_plist_arrays_noop _ _ _
      (Patcher.update_plist_arrays_settles _ v model (by decide))
  | some board =>
    simp only [Patcher.patchPlistValue, Patcher.patch_supported_models,
      Patcher.patch_supported_board_ids]
    have hdisj : ∀ k ∈ Patcher.supported_model_keys, k ∉ Patcher.board_id_keys := by decide
    have hm : ∀ k ∈ Patcher.supported_model_keys,
        Patcher.keySettled
          ((Patcher.update_plist_arrays
            (Patcher.update_plist_arrays v Patcher.supported_model_keys model).1
            Patcher.board_id_keys board).1) k model := by
      intro k hk
      exact Patcher.update_plist_arrays_preserves _ _ k model board (hdisj k hk)
        (Patcher.update_plist_arrays_settles _ v model (by decide) k hk)
    have hb : ∀ k ∈ Patcher.board_id_keys,
        Patcher.keySettled
          ((Patcher.update_plist_arrays
            (Patcher.update_plist_arrays v Patcher.supported_model_keys model).1
            Patcher.board_id_keys board).1) k board :=
      Patcher.update_plist_arrays_settles _ _ board (by decide)
    have h1 := Patcher.update_plist_arrays_noop Patcher.supported_model_keys _ model hm
    have h2 := Patcher.update_plist_arrays_noop Patcher.board_id_keys _ board hb
    rw [h1]
    simp [h2]

end PhoenixCore
